import Mathlib

/-!
Verification of `training/misc.py` (StyleGAN2 utility fragment).

The file shallowly embeds the functions of `training/misc.py` that the
specification talks about, and proves the specification's claims about them.

Modelling conventions:
* numpy float32 arithmetic is idealised as exact rational arithmetic (`ℚ`);
* machine integers are `Nat`/`Int`;
* an image is a pixel function `Nat → Nat → ℚ` (or with a `Fin 3` channel);
* the stochastic draws of `tensorflow` / `numpy` random primitives become
  explicit parameters constrained by the hypotheses that the corresponding
  primitive guarantees (for example `tf.random_uniform(minval=0, maxval=m)`
  becomes a parameter `v` with hypothesis `v < m`);
* a data source `training_set.get_minibatch_np(1)` called repeatedly becomes a
  stream `src : Nat → α × List ℚ`, the call at iteration `t` returning `src t`;
* Python exceptions become the `Except.error` branch of an `Except` result;
* file paths are `List Char` (Python compares strings by code points, which is
  exactly lexicographic comparison of the character lists).
-/

/-! ## numpy helpers -/

/-- Embedding of `np.clip(a, lo, hi)` on nonnegative integers:
`np.clip` is `minimum(maximum(a, lo), hi)`. -/
def npClip (a lo hi : Nat) : Nat := min (max a lo) hi

/-- Embedding of `np.clip(v, lo, hi)` on integers (used after `np.rint`). -/
def npClipInt (v lo hi : Int) : Int := min (max v lo) hi

/-- Embedding of `np.rint` on an exact rational: round to the nearest integer,
ties to the even integer (IEEE round-half-even, which `np.rint` implements). -/
def npRint (x : ℚ) : Int :=
  let f : Int := Int.floor x
  let r : ℚ := x - (f : ℚ)
  if r < 1/2 then f
  else if 1/2 < r then f + 1
  else if 2 ∣ f then f else f + 1

/-- Embedding of `np.argmax` on a rank-1 array: index of the first occurrence
of the maximal value.  Auxiliary scan carrying the current position, the best
index so far and the best value so far. -/
def npArgmaxAux : List ℚ → Nat → Nat → ℚ → Nat
  | [], _, bi, _ => bi
  | v :: rest, cur, bi, bv =>
      if bv < v then npArgmaxAux rest (cur + 1) cur v
      else npArgmaxAux rest (cur + 1) bi bv

/-- Embedding of `np.argmax` on a rank-1 array (`np.argmax` of an empty array
raises; the value `0` returned here for `[]` is never relied upon: every
theorem using labels constrains them to be nonempty one-hot vectors). -/
def npArgmax : List ℚ → Nat
  | [] => 0
  | v :: rest => npArgmaxAux rest 1 0 v

/-! ## `adjust_dynamic_range` (misc.py lines 49-54) -/

/-- Embedding of `adjust_dynamic_range(data, drange_in, drange_out)` acting on
one array element `x` (the numpy operation is elementwise):
when the two ranges differ, apply the affine map
`x * scale + bias` with `scale = (out1-out0)/(in1-in0)` and
`bias = out0 - in0*scale`; otherwise return `x` unchanged. -/
def adjust_dynamic_range (x : ℚ) (drange_in drange_out : ℚ × ℚ) : ℚ :=
  if drange_in ≠ drange_out then
    let scale : ℚ := (drange_out.2 - drange_out.1) / (drange_in.2 - drange_in.1)
    let bias : ℚ := drange_out.1 - drange_in.1 * scale
    x * scale + bias
  else x

/-! ## `setup_snapshot_image_grid`: grid-size selection (misc.py lines 344-354) -/

/-- Shape and label metadata of a `training_set`
(`shape = [channels, height, width]`, plus `label_size`). -/
structure TrainingSetInfo where
  channels : Nat
  height : Nat
  width : Nat
  label_size : Nat

/-- Embedding of the size-selection prologue of `setup_snapshot_image_grid`:
`gw = 1; gh = 1` followed by three independent `if size == ...` assignments using
`np.clip(pixels // training_set.shape[k], lo, hi)`. -/
def gridDims (ts : TrainingSetInfo) (size : List Char) : Nat × Nat :=
  let g0 : Nat × Nat := (1, 1)
  let g1 : Nat × Nat :=
    if size = "1080p".toList then
      (npClip (1920 / ts.width) 3 32, npClip (1080 / ts.height) 2 32)
    else g0
  let g2 : Nat × Nat :=
    if size = "4k".toList then
      (npClip (3840 / ts.width) 7 32, npClip (2160 / ts.height) 4 32)
    else g1
  let g3 : Nat × Nat :=
    if size = "8k".toList then
      (npClip (7680 / ts.width) 7 32, npClip (4320 / ts.height) 4 32)
    else g2
  g3

/-! ## Theorems for claim C3 -/

theorem npClip_lower {a lo hi : Nat} (h : lo ≤ hi) : lo ≤ npClip a lo hi := by
  unfold npClip
  exact le_min (le_max_right a lo) h

theorem npClip_upper (a lo hi : Nat) : npClip a lo hi ≤ hi := min_le_right _ _

/-- C3: for every training set with positive image height and width,
`setup_snapshot_image_grid` computes its grid dimensions by integer division
of the preset's pixel dimensions by the image dimensions, clamped into the
preset bounds (`1080p`: gw ∈ [3,32], gh ∈ [2,32]; `4k` and `8k`:
gw ∈ [7,32], gh ∈ [4,32]); and for every size argument, recognised or not,
both returned dimensions are at least 1. -/
theorem C3_grid_dims_clamped (ts : TrainingSetInfo)
    (hh : 0 < ts.height) (hw : 0 < ts.width) :
    (gridDims ts "1080p".toList
        = (npClip (1920 / ts.width) 3 32, npClip (1080 / ts.height) 2 32)
      ∧ 3 ≤ (gridDims ts "1080p".toList).1 ∧ (gridDims ts "1080p".toList).1 ≤ 32
      ∧ 2 ≤ (gridDims ts "1080p".toList).2 ∧ (gridDims ts "1080p".toList).2 ≤ 32)
    ∧ (gridDims ts "4k".toList
        = (npClip (3840 / ts.width) 7 32, npClip (2160 / ts.height) 4 32)
      ∧ 7 ≤ (gridDims ts "4k".toList).1 ∧ (gridDims ts "4k".toList).1 ≤ 32
      ∧ 4 ≤ (gridDims ts "4k".toList).2 ∧ (gridDims ts "4k".toList).2 ≤ 32)
    ∧ (gridDims ts "8k".toList
        = (npClip (7680 / ts.width) 7 32, npClip (4320 / ts.height) 4 32)
      ∧ 7 ≤ (gridDims ts "8k".toList).1 ∧ (gridDims ts "8k".toList).1 ≤ 32
      ∧ 4 ≤ (gridDims ts "8k".toList).2 ∧ (gridDims ts "8k".toList).2 ≤ 32)
    ∧ (∀ size : List Char,
        1 ≤ (gridDims ts size).1 ∧ 1 ≤ (gridDims ts size).2) := by
  refine ⟨⟨by simp [gridDims], ?_, ?_, ?_, ?_⟩,
          ⟨by simp [gridDims], ?_, ?_, ?_, ?_⟩,
          ⟨by simp [gridDims], ?_, ?_, ?_, ?_⟩, ?_⟩
  all_goals simp only [gridDims]
  · simpa using npClip_lower (by norm_num)
  · simpa using npClip_upper (1920 / ts.width) 3 32
  · simpa using npClip_lower (by norm_num)
  · simpa using npClip_upper (1080 / ts.height) 2 32
  · simpa using npClip_lower (by norm_num)
  · simpa using npClip_upper (3840 / ts.width) 7 32
  · simpa using npClip_lower (by norm_num)
  · simpa using npClip_upper (2160 / ts.height) 4 32
  · simpa using npClip_lower (by norm_num)
  · simpa using npClip_upper (7680 / ts.width) 7 32
  · simpa using npClip_lower (by norm_num)
  · simpa using npClip_upper (4320 / ts.height) 4 32
  · intro size
    by_cases h8 : size = "8k".toList
    · subst h8
      constructor
      · simpa using le_trans (by norm_num) (npClip_lower (a := 7680 / ts.width) (by norm_num : (7:Nat) ≤ 32))
      · simpa using le_trans (by norm_num) (npClip_lower (a := 4320 / ts.height) (by norm_num : (4:Nat) ≤ 32))
    · by_cases h4 : size = "4k".toList
      · subst h4
        constructor
        · simpa [h8] using le_trans (by norm_num) (npClip_lower (a := 3840 / ts.width) (by norm_num : (7:Nat) ≤ 32))
        · simpa [h8] using le_trans (by norm_num) (npClip_lower (a := 2160 / ts.height) (by norm_num : (4:Nat) ≤ 32))
      · by_cases h1 : size = "1080p".toList
        · subst h1
          constructor
          · simpa [h8, h4] using le_trans (by norm_num) (npClip_lower (a := 1920 / ts.width) (by norm_num : (3:Nat) ≤ 32))
          · simpa [h8, h4] using le_trans (by norm_num) (npClip_lower (a := 1080 / ts.height) (by norm_num : (2:Nat) ≤ 32))
        · rw [if_neg h8, if_neg h4, if_neg h1]
          exact ⟨le_refl 1, le_refl 1⟩

/-- Witness for C3 at a concrete 256×256, 10-class training set. -/
theorem C3_grid_dims_clamped_witness :
    0 < (256:Nat) ∧
    gridDims ⟨3, 256, 256, 10⟩ "1080p".toList = (7, 4) ∧
    1 ≤ (gridDims ⟨3, 256, 256, 10⟩ "other".toList).1 := by
  refine ⟨by norm_num, ?_, ?_⟩
  · have h := C3_grid_dims_clamped ⟨3, 256, 256, 10⟩ (by norm_num) (by norm_num)
    rw [h.1.1]
    decide
  · exact (C3_grid_dims_clamped ⟨3, 256, 256, 10⟩ (by norm_num)
      (by norm_num)).2.2.2 "other".toList |>.1

/-! ## Theorems for claim C6 -/

/-- C6: `adjust_dynamic_range` is the identity when the input and output
ranges coincide, and remapping from range `A` to range `B` and back to `A`
restores the value exactly (the idealised, exact-arithmetic form of
"invertible up to floating-point tolerance"), for every pair of
non-degenerate ranges. -/
theorem C6_adjust_dynamic_range_inverse (x : ℚ) (A B : ℚ × ℚ)
    (hA : A.1 ≠ A.2) (hB : B.1 ≠ B.2) :
    adjust_dynamic_range x A A = x
    ∧ adjust_dynamic_range (adjust_dynamic_range x A B) B A = x := by
  constructor
  · simp [adjust_dynamic_range]
  · by_cases hAB : A = B
    · subst hAB
      simp [adjust_dynamic_range]
    · have hA2 : A.2 - A.1 ≠ 0 := sub_ne_zero.mpr (Ne.symm hA)
      have hB2 : B.2 - B.1 ≠ 0 := sub_ne_zero.mpr (Ne.symm hB)
      have hBA : B ≠ A := Ne.symm hAB
      simp only [adjust_dynamic_range, if_pos hAB, if_pos hBA, ne_eq]
      field_simp
      ring

/-- Witness for C6 at `x = 1/3`, `A = (0, 1)`, `B = (-1, 1)`. -/
theorem C6_adjust_dynamic_range_inverse_witness :
    ((0:ℚ), (1:ℚ)).1 ≠ ((0:ℚ), (1:ℚ)).2 ∧
    adjust_dynamic_range (adjust_dynamic_range (1/3) ((0:ℚ),1) ((-1:ℚ),1)) ((-1:ℚ),1) ((0:ℚ),1) = 1/3 := by
  refine ⟨by norm_num, ?_⟩
  exact (C6_adjust_dynamic_range_inverse (1/3) ((0:ℚ),1) ((-1:ℚ),1)
    (by norm_num) (by norm_num)).2

/-! ## `convert_to_pil_image` (misc.py lines 73-84) -/

/-- Embedding of the per-element numeric pipeline of `convert_to_pil_image`:
`adjust_dynamic_range(image, drange, [0,255])`, then `np.rint`, then
`.clip(0, 255)` (after which `.astype(np.uint8)` is exact because the value is
an integer in `[0, 255]`).  The channel reshaping of the source does not touch
pixel values and is not modelled. -/
def convert_to_pil_image_pixel (x : ℚ) (drange : ℚ × ℚ) : Int :=
  npClipInt (npRint (adjust_dynamic_range x drange ((0:ℚ), 255))) 0 255

/-- C7: for every pixel value and every declared input range (including values
lying outside that range), `convert_to_pil_image` produces the affine remap to
`[0,255]` rounded to the nearest integer and clamped into `[0, 255]`; the
result is always a valid byte. -/
theorem C7_convert_pixel_clamped (x : ℚ) (drange : ℚ × ℚ) :
    0 ≤ convert_to_pil_image_pixel x drange
    ∧ convert_to_pil_image_pixel x drange ≤ 255
    ∧ convert_to_pil_image_pixel x drange
        = npClipInt (npRint (adjust_dynamic_range x drange ((0:ℚ), 255))) 0 255 := by
  refine ⟨?_, ?_, rfl⟩
  · exact le_min (le_max_right _ _) (by norm_num)
  · exact min_le_right _ _

/-! ## `create_image_grid` (misc.py lines 56-71) -/

/-- Value of a cell of `np.zeros(...)`: the all-zero image, also used as the
out-of-range default when indexing the batch list. -/
def zeroImg : Nat → Nat → ℚ := fun _ _ => 0

/-- Embedding of one loop iteration of `create_image_grid`:
`grid[..., y : y + img_h, x : x + img_w] = images[idx]` as a functional update
of the grid pixel function. -/
def writeTile (g img : Nat → Nat → ℚ) (y0 x0 imgH imgW : Nat) : Nat → Nat → ℚ :=
  fun y x =>
    if y0 ≤ y ∧ y < y0 + imgH ∧ x0 ≤ x ∧ x < x0 + imgW then img (y - y0) (x - x0)
    else g y x

/-- State of the `create_image_grid` loop after its first `n` iterations,
starting from the `np.zeros` grid. -/
def gridPrefix (images : List (Nat → Nat → ℚ)) (imgH imgW gridW : Nat) (n : Nat) :
    Nat → Nat → ℚ :=
  (List.range n).foldl
    (fun g idx =>
      writeTile g (images.getD idx zeroImg) ((idx / gridW) * imgH)
        ((idx % gridW) * imgW) imgH imgW)
    zeroImg

/-- Embedding of `create_image_grid(images, (grid_w, grid_h))` as a pixel
function: run the tile-writing loop over all `num = images.length` batch
entries, with `x = (idx % grid_w) * img_w` and `y = (idx // grid_w) * img_h`. -/
def create_image_grid (images : List (Nat → Nat → ℚ)) (imgH imgW gridW : Nat) :
    Nat → Nat → ℚ :=
  gridPrefix images imgH imgW gridW images.length

/-- Spatial shape of the array allocated by `create_image_grid`:
`np.zeros(... + [grid_h * img_h, grid_w * img_w])`. -/
def create_image_grid_shape (imgH imgW gridW gridH : Nat) : Nat × Nat :=
  (gridH * imgH, gridW * imgW)

/-- Two tile bands `[a*H, a*H + H)` and `[b*H, b*H + H)` that share the point
`b*H + d` (with `d < H`) have the same index. -/
theorem tile_band_eq {a b d H : Nat} (hd : d < H)
    (h1 : a * H ≤ b * H + d) (h2 : b * H + d < a * H + H) : a = b := by
  rcases Nat.lt_trichotomy a b with h | h | h
  · exfalso
    have h3 : (a + 1) * H ≤ b * H := Nat.mul_le_mul_right H h
    have h4 : a * H + H ≤ b * H := by rwa [Nat.succ_mul] at h3
    exact absurd (lt_of_lt_of_le h2 h4) (Nat.not_lt.mpr (Nat.le_add_right _ _))
  · exact h
  · exfalso
    have h3 : (b + 1) * H ≤ a * H := Nat.mul_le_mul_right H h
    have h4 : b * H + H ≤ a * H := by rwa [Nat.succ_mul] at h3
    exact absurd hd (Nat.not_lt.mpr (Nat.le_of_add_le_add_left (le_trans h4 h1)))

/-- After `n` loop iterations, every already-written tile `i < n` holds its
image unchanged. -/
theorem gridPrefix_tile (images : List (Nat → Nat → ℚ)) (imgH imgW gridW : Nat) :
    ∀ n, ∀ i < n, ∀ dy < imgH, ∀ dx < imgW,
      gridPrefix images imgH imgW gridW n
        ((i / gridW) * imgH + dy) ((i % gridW) * imgW + dx)
      = images.getD i zeroImg dy dx := by
  intro n
  induction n with
  | zero => intro i hi; omega
  | succ n ih =>
    intro i hi dy hdy dx hdx
    have hstep : gridPrefix images imgH imgW gridW (n + 1)
        = writeTile (gridPrefix images imgH imgW gridW n)
            (images.getD n zeroImg) ((n / gridW) * imgH) ((n % gridW) * imgW)
            imgH imgW := by
      simp [gridPrefix, List.range_succ]
    rw [hstep]
    by_cases hin : i = n
    · subst hin
      have hc : (i / gridW) * imgH ≤ (i / gridW) * imgH + dy
          ∧ (i / gridW) * imgH + dy < (i / gridW) * imgH + imgH
          ∧ (i % gridW) * imgW ≤ (i % gridW) * imgW + dx
          ∧ (i % gridW) * imgW + dx < (i % gridW) * imgW + imgW :=
        ⟨Nat.le_add_right _ _, Nat.add_lt_add_left hdy _,
         Nat.le_add_right _ _, Nat.add_lt_add_left hdx _⟩
      simp only [writeTile, if_pos hc, Nat.add_sub_cancel_left]
    · have hi2 : i < n := Nat.lt_of_le_of_ne (Nat.lt_succ_iff.mp hi) hin
      have hc : ¬ ((n / gridW) * imgH ≤ (i / gridW) * imgH + dy
          ∧ (i / gridW) * imgH + dy < (n / gridW) * imgH + imgH
          ∧ (n % gridW) * imgW ≤ (i % gridW) * imgW + dx
          ∧ (i % gridW) * imgW + dx < (n % gridW) * imgW + imgW) := by
        rintro ⟨hy1, hy2, hx1, hx2⟩
        have hdiv : n / gridW = i / gridW := tile_band_eq hdy hy1 hy2
        have hmod : n % gridW = i % gridW := tile_band_eq hdx hx1 hx2
        have heq : i = n := by
          rw [← Nat.div_add_mod i gridW, ← Nat.div_add_mod n gridW, hdiv, hmod]
        exact hin heq
      simp only [writeTile, if_neg hc]
      exact ih i hi2 dy hdy dx hdx

/-- C5: for every batch of `N` same-sized `(imgH, imgW)` images and every grid
layout `(gridW, gridH)` with `gridW * gridH ≥ N`, `create_image_grid` allocates
an array of spatial shape `(gridH * imgH, gridW * imgW)`, and image `i`
occupies, unchanged, the tile at row `i / gridW` and column `i % gridW`. -/
theorem C5_create_image_grid_tiles (images : List (Nat → Nat → ℚ))
    (imgH imgW gridW gridH : Nat)
    (hcap : images.length ≤ gridW * gridH)
    (i : Nat) (hi : i < images.length)
    (dy : Nat) (hdy : dy < imgH) (dx : Nat) (hdx : dx < imgW) :
    create_image_grid_shape imgH imgW gridW gridH = (gridH * imgH, gridW * imgW)
    ∧ create_image_grid images imgH imgW gridW
        ((i / gridW) * imgH + dy) ((i % gridW) * imgW + dx)
      = images.getD i zeroImg dy dx :=
  ⟨rfl, gridPrefix_tile images imgH imgW gridW images.length i hi dy hdy dx hdx⟩

/-- Witness for C5: a 2×2 grid of three constant 1×1 images; the third image
(index 2) lands at row `2 / 2 = 1`, column `2 % 2 = 0`. -/
theorem C5_create_image_grid_tiles_witness :
    (3:Nat) ≤ 2 * 2 ∧
    create_image_grid
      [fun _ _ => (5:ℚ), fun _ _ => 6, fun _ _ => 7] 1 1 2 1 0 = 7 := by
  refine ⟨by norm_num, ?_⟩
  have h := C5_create_image_grid_tiles
    [fun _ _ => (5:ℚ), fun _ _ => 6, fun _ _ => 7] 1 1 2 2
    (by norm_num) 2 (by norm_num) 0 (by norm_num) 0 (by norm_num)
  simpa using h.2

/-! ## `random_cutout` (misc.py lines 295-326) -/

/-- Embedding of `random_cutout` on a 3-channel image, with the two random
draws (`size`, and the top-left location `(x, y)`) made explicit parameters.
The source builds `erase_area = tf.ones([size, size, 3])`, returns the image
unchanged when its shape is `(0, 0, 3)` (that is, when `size = 0`), and
otherwise multiplies the image by
`mask = 1 - tf.image.pad_to_bounding_box(erase_area, y, x, height, width)`,
which is `0` on the square `[y, y+size) × [x, x+size)` and `1` elsewhere. -/
def random_cutout (img : Nat → Nat → Fin 3 → ℚ) (size x y : Nat) :
    Nat → Nat → Fin 3 → ℚ :=
  if size = 0 then img
  else fun i j c =>
    img i j c *
      (1 - (if y ≤ i ∧ i < y + size ∧ x ≤ j ∧ j < x + size then (1:ℚ) else 0))

/-- C8: for every 3-channel image and every admissible random draw
(`size < max_val ≤ min(width, height)`, then `x < width - size` and
`y < height - size`), the drawn square lies fully in bounds, `random_cutout`
zeroes exactly that square, leaves every pixel outside it identical to the
input, and returns the input unmodified when the drawn size is zero. -/
theorem C8_random_cutout_square (img : Nat → Nat → Fin 3 → ℚ)
    (height width max_val size x y : Nat)
    (hmw : max_val ≤ width) (hmh : max_val ≤ height)
    (hsize : size < max_val) (hx : x < width - size) (hy : y < height - size) :
    (x + size < width ∧ y + size < height)
    ∧ (∀ i j, ∀ c : Fin 3,
        random_cutout img size x y i j c
          = if y ≤ i ∧ i < y + size ∧ x ≤ j ∧ j < x + size then 0 else img i j c)
    ∧ (size = 0 → random_cutout img size x y = img) := by
  have hsw : size < width := lt_of_lt_of_le hsize hmw
  have hsh : size < height := lt_of_lt_of_le hsize hmh
  refine ⟨⟨by omega, by omega⟩, ?_, fun h0 => by simp [random_cutout, h0]⟩
  intro i j c
  by_cases h0 : size = 0
  · subst h0
    have hno : ¬ (y ≤ i ∧ i < y ∧ x ≤ j ∧ j < x) := by omega
    simp [random_cutout, hno]
  · by_cases hin : y ≤ i ∧ i < y + size ∧ x ≤ j ∧ j < x + size
    · simp [random_cutout, h0, hin]
    · simp [random_cutout, h0, hin]

/-- Witness for C8: a 4×4 image, `max_val = 2`, a drawn 1×1 square at `(1,1)`;
the pixel inside the square becomes `0` and a pixel outside keeps its value. -/
theorem C8_random_cutout_square_witness :
    (1:Nat) < 2 ∧ (2:Nat) ≤ 4 ∧
    random_cutout (fun i j c => (i + 2 * j + c.val + 1 : ℚ)) 1 1 1 1 1 0 = 0 ∧
    random_cutout (fun i j c => (i + 2 * j + c.val + 1 : ℚ)) 1 1 1 0 0 0 = 1 := by
  have h := C8_random_cutout_square (fun i j c => (i + 2 * j + c.val + 1 : ℚ))
    4 4 2 1 1 1 (by norm_num) (by norm_num) (by norm_num) (by norm_num) (by norm_num)
  refine ⟨by norm_num, by norm_num, ?_, ?_⟩
  · rw [h.2.1 1 1 0]
    norm_num
  · rw [h.2.1 0 0 0]
    norm_num

/-! ## `locate_latest_pkl` (misc.py lines 32-40) -/

/-- Python's string comparison on code points, as lexicographic comparison of
character lists (the order used by `sorted(...)` in `locate_latest_pkl`). -/
def pyStrLe : List Char → List Char → Bool
  | [], _ => true
  | _ :: _, [] => false
  | c :: cs, d :: ds => if c < d then true else if d < c then false else pyStrLe cs ds

/-- Embedding of `os.path.basename`: the characters after the last slash. -/
def pathBasename (p : List Char) : List Char :=
  p.foldl (fun acc c => if c = '/' then [] else acc ++ [c]) []

/-- Numeric value of a digit string, as produced by Python's `int()`. -/
def digitsVal (l : List Char) : Nat :=
  l.foldl (fun a c => a * 10 + (c.toNat - '0'.toNat)) 0

/-- The fixed-length part of the regex `network-snapshot-(\d+).pkl` that
follows the digit group: one character other than a newline (the unescaped
`.`), then the literal characters `p`, `k`, `l`; `re.match` does not anchor
the end, so trailing characters are ignored. -/
def dotPklCheck (l : List Char) : Bool :=
  match l with
  | c :: p :: k :: m :: _ =>
      decide (c ≠ '\n') && decide (p = 'p') && decide (k = 'k') && decide (m = 'l')
  | _ => false

/-- Greedy-with-backtracking search for the group `(\d+)`: try the maximal
digit run first and shrink it until the rest of the pattern matches; at least
one digit is required. -/
def greedyDigits (rest : List Char) : Nat → Option Nat
  | 0 => none
  | k + 1 => if dotPklCheck (rest.drop (k + 1)) then some (k + 1) else greedyDigits rest k

/-- Embedding of `re.compile('network-snapshot-(\d+).pkl').match(basename)`
followed by `int(... .group(1))`: `re.match` anchors the pattern at the start
of the string only; `some kimg` is a successful match with group value `kimg`,
`none` is a failed match (on which the source dereferences `None` and raises). -/
def parseSnapshotKimg (s : List Char) : Option Nat :=
  let pre := "network-snapshot-".toList
  if s.take pre.length = pre then
    let rest := s.drop pre.length
    match greedyDigits rest (rest.takeWhile Char.isDigit).length with
    | some k => some (digitsVal (rest.take k))
    | none => none
  else none

/-- The basename part of the glob pattern `'0*/network-*.pkl'` used by
`locate_latest_pkl`: a name matches `network-*.pkl` exactly when it starts
with `network-` and ends with `.pkl`. -/
def globNetworkPkl (s : List Char) : Bool :=
  decide (8 + 4 ≤ s.length)
    && decide (s.take 8 = "network-".toList)
    && decide (s.drop (s.length - 4) = ".pkl".toList)

/-- Embedding of `locate_latest_pkl`, as a function of the list of glob
matches for `os.path.join(result_dir, '0*', 'network-*.pkl')`:
sort the matches (Python sorts strings lexicographically by code point),
return the sentinel `(None, 0.0)` when there are none, otherwise take the last
element and parse its basename with the snapshot regex.  The iteration count
is modelled as the parsed natural number (`float(kimg)` is exact for these
values); a failed regex match makes `.group(1)` raise `AttributeError`, which
is the `Except.error` branch. -/
def locate_latest_pkl (pkls : List (List Char)) :
    Except Unit (Option (List Char) × Nat) :=
  let allpickles := pkls.mergeSort pyStrLe
  if h : allpickles = [] then Except.ok (none, 0)
  else
    match parseSnapshotKimg (pathBasename (allpickles.getLast h)) with
    | some kimg => Except.ok (some (allpickles.getLast h), kimg)
    | none => Except.error ()

theorem pyStrLe_refl : ∀ a : List Char, pyStrLe a a = true := by
  intro a
  induction a with
  | nil => simp [pyStrLe]
  | cons c cs ih => simp [pyStrLe, lt_irrefl, ih]

theorem pyStrLe_total : ∀ a b : List Char, (pyStrLe a b || pyStrLe b a) = true := by
  intro a
  induction a with
  | nil => intro b; simp [pyStrLe]
  | cons c cs ih =>
    intro b
    cases b with
    | nil => simp [pyStrLe]
    | cons d ds =>
      rcases lt_trichotomy c d with h | h | h
      · simp [pyStrLe, h]
      · subst h
        simpa [pyStrLe, lt_irrefl] using ih ds
      · simp [pyStrLe, h, asymm h]

theorem pyStrLe_trans : ∀ a b c : List Char,
    pyStrLe a b = true → pyStrLe b c = true → pyStrLe a c = true := by
  intro a
  induction a with
  | nil => intro b c _ _; simp [pyStrLe]
  | cons x xs ih =>
    intro b c hab hbc
    cases b with
    | nil => simp [pyStrLe] at hab
    | cons y ys =>
      cases c with
      | nil => simp [pyStrLe] at hbc
      | cons z zs =>
        rcases lt_trichotomy x y with h1 | h1 | h1
        · rcases lt_trichotomy y z with h2 | h2 | h2
          · simp [pyStrLe, lt_trans h1 h2]
          · subst h2; simp [pyStrLe, h1]
          · simp [pyStrLe, h2, asymm h2] at hbc
        · subst h1
          simp only [pyStrLe, lt_irrefl, if_neg (lt_irrefl x)] at hab
          rcases lt_trichotomy x z with h2 | h2 | h2
          · simp [pyStrLe, h2]
          · subst h2
            simp only [pyStrLe, lt_irrefl, if_neg (lt_irrefl x)] at hbc ⊢
            exact ih ys zs (by simpa using hab) (by simpa using hbc)
          · simp [pyStrLe, h2, asymm h2] at hbc
        · simp [pyStrLe, h1, asymm h1] at hab

theorem pyStrLe_antisymm : ∀ a b : List Char,
    pyStrLe a b = true → pyStrLe b a = true → a = b := by
  intro a
  induction a with
  | nil =>
    intro b _ hba
    cases b with
    | nil => rfl
    | cons d ds => simp [pyStrLe] at hba
  | cons c cs ih =>
    intro b hab hba
    cases b with
    | nil => simp [pyStrLe] at hab
    | cons d ds =>
      rcases lt_trichotomy c d with h | h | h
      · simp [pyStrLe, h, asymm h] at hba
      · subst h
        simp only [pyStrLe, lt_irrefl, if_neg (lt_irrefl c)] at hab hba
        rw [ih ds (by simpa using hab) (by simpa using hba)]
      · simp [pyStrLe, h, asymm h] at hab

/-- In a `pyStrLe`-sorted list, every element is at most the last element. -/
theorem pairwise_le_getLast :
    ∀ (l : List (List Char)) (hl : l ≠ []),
      List.Pairwise (fun a b => pyStrLe a b = true) l →
      ∀ x ∈ l, pyStrLe x (l.getLast hl) = true := by
  intro l
  induction l with
  | nil => intro hl; exact absurd rfl hl
  | cons a t ih =>
    intro hl hp x hx
    cases t with
    | nil =>
      rcases List.mem_singleton.mp hx with rfl
      exact pyStrLe_refl x
    | cons b t2 =>
      rw [List.getLast_cons (by simp)]
      rcases List.mem_cons.mp hx with rfl | hx2
      · exact (List.pairwise_cons.mp hp).1 _ (List.getLast_mem _)
      · exact ih (by simp) (List.pairwise_cons.mp hp).2 x hx2

/-- C4: `locate_latest_pkl` returns the sentinel `(None, 0.0)` exactly when
the glob finds no file; when at least one file matches and the
lexicographically last match has a parseable `network-snapshot-<digits>.pkl`
basename, it returns that match together with the parsed iteration count. -/
theorem C4_locate_latest_pkl_sentinel (pkls : List (List Char)) :
    (locate_latest_pkl pkls = Except.ok (none, 0) ↔ pkls = [])
    ∧ (∀ (p : List Char) (kimg : Nat), p ∈ pkls →
        (∀ q ∈ pkls, pyStrLe q p = true) →
        parseSnapshotKimg (pathBasename p) = some kimg →
        locate_latest_pkl pkls = Except.ok (some p, kimg)) := by
  by_cases hm : pkls = []
  · subst hm
    constructor
    · simp [locate_latest_pkl]
    · intro p kimg hp
      exact absurd hp (List.not_mem_nil p)
  · have hperm := List.mergeSort_perm pkls pyStrLe
    have hs : pkls.mergeSort pyStrLe ≠ [] := by
      intro h0
      exact hm (List.eq_nil_of_length_eq_zero (by rw [← hperm.length_eq, h0, List.length_nil]))
    have hlast_mem : (pkls.mergeSort pyStrLe).getLast hs ∈ pkls :=
      hperm.mem_iff.mp (List.getLast_mem hs)
    have hpair : List.Pairwise (fun a b => pyStrLe a b = true) (pkls.mergeSort pyStrLe) :=
      List.sorted_mergeSort (fun a b c => pyStrLe_trans a b c)
        (fun a b => pyStrLe_total a b) pkls
    constructor
    · constructor
      · intro heq
        exfalso
        rcases hparse : parseSnapshotKimg (pathBasename ((pkls.mergeSort pyStrLe).getLast hs)) with _ | k
        · rw [locate_latest_pkl, dif_neg hs, hparse] at heq
          exact Except.noConfusion heq
        · rw [locate_latest_pkl, dif_neg hs, hparse] at heq
          have h2 := Except.ok.inj heq
          exact Option.noConfusion (congrArg Prod.fst h2)
      · intro h0
        exact absurd h0 hm
    · intro p kimg hp hmax hparse
      have hle1 : pyStrLe ((pkls.mergeSort pyStrLe).getLast hs) p = true :=
        hmax _ hlast_mem
      have hle2 : pyStrLe p ((pkls.mergeSort pyStrLe).getLast hs) = true :=
        pairwise_le_getLast _ hs hpair p (hperm.mem_iff.mpr hp)
      have heqp : (pkls.mergeSort pyStrLe).getLast hs = p :=
        pyStrLe_antisymm _ _ hle1 hle2
      rw [locate_latest_pkl, dif_neg hs, heqp, hparse]

/-- Witness for C4 on two concrete checkpoint paths. -/
theorem C4_locate_latest_pkl_sentinel_witness :
    "000/network-snapshot-000005.pkl".toList
        ∈ ["001/network-snapshot-000012.pkl".toList,
           "000/network-snapshot-000005.pkl".toList]
    ∧ locate_latest_pkl
        ["001/network-snapshot-000012.pkl".toList,
         "000/network-snapshot-000005.pkl".toList]
      = Except.ok (some "001/network-snapshot-000012.pkl".toList, 12) := by
  constructor
  · decide
  · exact (C4_locate_latest_pkl_sentinel _).2
      "001/network-snapshot-000012.pkl".toList 12 (by decide) (by decide) (by decide)

/-- C9: when the glob finds at least one match but the lexicographically last
match has a basename the snapshot regex rejects (such as `network-final.pkl`,
which the glob pattern `network-*.pkl` accepts), `locate_latest_pkl` raises
instead of returning the sentinel: the glob pattern is strictly broader than
the parseable filename pattern. -/
theorem C9_locate_latest_pkl_raises (pkls : List (List Char)) (p : List Char)
    (hp : p ∈ pkls) (hmax : ∀ q ∈ pkls, pyStrLe q p = true)
    (hparse : parseSnapshotKimg (pathBasename p) = none) :
    locate_latest_pkl pkls = Except.error ()
    ∧ globNetworkPkl "network-final.pkl".toList = true
    ∧ parseSnapshotKimg "network-final.pkl".toList = none := by
  have hm : pkls ≠ [] := by
    intro h0
    rw [h0] at hp
    exact List.not_mem_nil p hp
  have hperm := List.mergeSort_perm pkls pyStrLe
  have hs : pkls.mergeSort pyStrLe ≠ [] := by
    intro h0
    exact hm (List.eq_nil_of_length_eq_zero (by rw [← hperm.length_eq, h0, List.length_nil]))
  have hlast_mem : (pkls.mergeSort pyStrLe).getLast hs ∈ pkls :=
    hperm.mem_iff.mp (List.getLast_mem hs)
  have hpair : List.Pairwise (fun a b => pyStrLe a b = true) (pkls.mergeSort pyStrLe) :=
    List.sorted_mergeSort (fun a b c => pyStrLe_trans a b c)
      (fun a b => pyStrLe_total a b) pkls
  have heqp : (pkls.mergeSort pyStrLe).getLast hs = p :=
    pyStrLe_antisymm _ _ (hmax _ hlast_mem)
      (pairwise_le_getLast _ hs hpair p (hperm.mem_iff.mpr hp))
  refine ⟨?_, by decide, by decide⟩
  rw [locate_latest_pkl, dif_neg hs, heqp, hparse]

/-- Witness for C9: a single glob match whose basename is `network-final.pkl`. -/
theorem C9_locate_latest_pkl_raises_witness :
    "000/network-final.pkl".toList ∈ ["000/network-final.pkl".toList]
    ∧ locate_latest_pkl ["000/network-final.pkl".toList] = Except.error () := by
  constructor
  · decide
  · exact (C9_locate_latest_pkl_raises ["000/network-final.pkl".toList]
      "000/network-final.pkl".toList (by decide) (by decide) (by decide)).1

/-! ## `setup_snapshot_image_grid`: class-balanced sampler (misc.py lines 364-388)

An example drawn from the data source is a pair `(real, label)` with an opaque
image payload `real : α` (the source never inspects it) and a label row
`label : List ℚ`. -/

/-- The class-conditional layouts:
`class_layouts = dict(row_per_class=[gw,1], col_per_class=[1,gh], class4x4=[4,4])`. -/
inductive ClassLayout
  | row_per_class
  | col_per_class
  | class4x4

/-- Block shape `[bw, bh]` of a class-conditional layout. -/
def blockShape (layout : ClassLayout) (gw gh : Nat) : Nat × Nat :=
  match layout with
  | ClassLayout.row_per_class => (gw, 1)
  | ClassLayout.col_per_class => (1, gh)
  | ClassLayout.class4x4 => (4, 4)

variable {α : Type}

/-- Embedding of the bucket-advance loop
`while idx < len(blocks) and len(blocks[idx]) >= bw * bh: idx += training_set.label_size`,
with explicit fuel.  Every use passes fuel `blocks.length + 1`, which
`advanceIdx_spec` proves sufficient whenever `label_size ≥ 1` (with
`label_size = 0` the Python loop would not terminate on a full bucket). -/
def advanceIdx (blocks : List (List (α × List ℚ))) (cap ls : Nat) :
    Nat → Nat → Nat
  | 0, idx => idx
  | fuel + 1, idx =>
      if idx < blocks.length ∧ cap ≤ (blocks.getD idx []).length then
        advanceIdx blocks cap ls fuel (idx + ls)
      else idx

/-- Embedding of the body of one draw of the rejection-sampling loop:
`idx = np.argmax(label[0])`, the bucket-advance loop, then
`if idx < len(blocks): blocks[idx].append((real, label))`. -/
def placeDraw (cap ls : Nat) (blocks : List (List (α × List ℚ)))
    (e : α × List ℚ) : List (List (α × List ℚ)) :=
  if advanceIdx blocks cap ls (blocks.length + 1) (npArgmax e.2) < blocks.length then
    blocks.set (advanceIdx blocks cap ls (blocks.length + 1) (npArgmax e.2))
      ((blocks.getD (advanceIdx blocks cap ls (blocks.length + 1) (npArgmax e.2)) []) ++ [e])
  else blocks

/-- Embedding of `all(len(block) >= bw * bh for block in blocks)`. -/
def allFull (cap : Nat) (blocks : List (List (α × List ℚ))) : Bool :=
  blocks.all (fun b => decide (cap ≤ b.length))

/-- Blocks state reached from `blocks` after draws `t, t+1, ..., t+d-1`
(the loop body applied `d` times, ignoring the break). -/
def iterFrom (src : Nat → α × List ℚ) (cap ls : Nat)
    (blocks : List (List (α × List ℚ))) (t : Nat) : Nat → List (List (α × List ℚ))
  | 0 => blocks
  | d + 1 => placeDraw cap ls (iterFrom src cap ls blocks t d) (src (t + d))

/-- Blocks state after the first `k` draws, starting from
`blocks = [[] for _i in range(nw * nh)]`. -/
def iterBlocks (src : Nat → α × List ℚ) (cap ls nb k : Nat) :
    List (List (α × List ℚ)) :=
  iterFrom src cap ls (List.replicate nb []) 0 k

/-- Embedding of the draw loop `for _iter in range(1000000): ...` with its
early break `if all(len(block) >= bw * bh for block in blocks): break`,
which the source checks only after appending an example.  `fuel` is the number
of loop iterations left and `t` the number of draws already made; the result
pairs the final blocks with the total number of draws. -/
def sampleLoopAux (src : Nat → α × List ℚ) (cap ls : Nat) :
    Nat → Nat → List (List (α × List ℚ)) → List (List (α × List ℚ)) × Nat
  | 0, t, blocks => (blocks, t)
  | fuel + 1, t, blocks =>
      if advanceIdx blocks cap ls (blocks.length + 1) (npArgmax (src t).2) < blocks.length then
        if allFull cap (placeDraw cap ls blocks (src t))
        then (placeDraw cap ls blocks (src t), t + 1)
        else sampleLoopAux src cap ls fuel (t + 1) (placeDraw cap ls blocks (src t))
      else sampleLoopAux src cap ls fuel (t + 1) blocks

/-- The whole rejection-sampling loop of `setup_snapshot_image_grid`:
one million iterations of fuel over the initially empty blocks. -/
def sampleLoop (src : Nat → α × List ℚ) (cap ls nb : Nat) :
    List (List (α × List ℚ)) × Nat :=
  sampleLoopAux src cap ls 1000000 0 (List.replicate nb [])

/-- Column of the grid cell for entry `j` of block `i`:
`x = (i % nw) * bw + j % bw`. -/
def cellX (nw bw i j : Nat) : Nat := (i % nw) * bw + j % bw

/-- Row of the grid cell for entry `j` of block `i`:
`y = (i // nw) * bh + j // bw`. -/
def cellY (nw bw bh i j : Nat) : Nat := (i / nw) * bh + j / bw

/-- One write of the final placement loop: guarded by `x < gw and y < gh`,
store the example's payload and label at flat index `x + y * gw` of the
`reals` and `labels` arrays. -/
def writeCell (nw bw bh gw gh : Nat) (acc : List α × List (List ℚ))
    (w : (Nat × Nat) × (α × List ℚ)) : List α × List (List ℚ) :=
  if cellX nw bw w.1.1 w.1.2 < gw ∧ cellY nw bw bh w.1.1 w.1.2 < gh then
    (acc.1.set (cellX nw bw w.1.1 w.1.2 + cellY nw bw bh w.1.1 w.1.2 * gw) w.2.1,
     acc.2.set (cellX nw bw w.1.1 w.1.2 + cellY nw bw bh w.1.1 w.1.2 * gw) w.2.2)
  else acc

/-- The nested loop `for i, block in enumerate(blocks): for j, (real, label)
in enumerate(block): ...` flattened into its sequence of writes, in loop
order. -/
def blockWrites (blocks : List (List (α × List ℚ))) :
    List ((Nat × Nat) × (α × List ℚ)) :=
  (blocks.enum.map (fun ib => ib.2.enum.map (fun je => ((ib.1, je.1), je.2)))).flatten

/-- The final placement loop of `setup_snapshot_image_grid` as a fold of the
writes over the `np.zeros`-initialised `(reals, labels)` arrays. -/
def fillGrid (nw bw bh gw gh : Nat) (blocks : List (List (α × List ℚ)))
    (init : List α × List (List ℚ)) : List α × List (List ℚ) :=
  (blockWrites blocks).foldl (writeCell nw bw bh gw gh) init

/-- Embedding of `setup_snapshot_image_grid(training_set, size, layout)` for
the class-conditional layouts: select the grid size, run the bounded
rejection-sampling loop, then place the collected blocks into the zero-filled
`reals` and `labels` arrays.  Returns `(gw, gh)` with the two arrays. -/
def setup_snapshot_image_grid [Zero α] (ts : TrainingSetInfo)
    (src : Nat → α × List ℚ) (size : List Char) (layout : ClassLayout) :
    (Nat × Nat) × List α × List (List ℚ) :=
  let gw := (gridDims ts size).1
  let gh := (gridDims ts size).2
  let bw := (blockShape layout gw gh).1
  let bh := (blockShape layout gw gh).2
  let nw := (gw - 1) / bw + 1
  let nh := (gh - 1) / bh + 1
  let blocks := (sampleLoop src (bw * bh) ts.label_size (nw * nh)).1
  let filled := fillGrid nw bw bh gw gh blocks
      (List.replicate (gw * gh) 0,
       List.replicate (gw * gh) (List.replicate ts.label_size 0))
  ((gw, gh), filled.1, filled.2)

/-! ## Generic lemmas about the sampler loop -/

theorem iterFrom_succ_front (src : Nat → α × List ℚ) (cap ls : Nat)
    (blocks : List (List (α × List ℚ))) (t : Nat) :
    ∀ d, iterFrom src cap ls blocks t (d + 1)
      = iterFrom src cap ls (placeDraw cap ls blocks (src t)) (t + 1) d := by
  intro d
  induction d with
  | zero => simp [iterFrom]
  | succ d ih =>
    show placeDraw cap ls (iterFrom src cap ls blocks t (d + 1)) (src (t + (d + 1)))
      = placeDraw cap ls (iterFrom src cap ls (placeDraw cap ls blocks (src t)) (t + 1) d)
          (src ((t + 1) + d))
    rw [ih, Nat.add_comm d 1, ← Nat.add_assoc]

theorem allFull_iff (cap : Nat) (blocks : List (List (α × List ℚ))) :
    allFull cap blocks = true
      ↔ ∀ b < blocks.length, cap ≤ (blocks.getD b []).length := by
  rw [allFull, List.all_eq_true]
  constructor
  · intro h b hb
    rw [List.getD_eq_getElem blocks [] hb]
    simpa using h _ (List.getElem_mem hb)
  · intro h x hx
    rcases List.mem_iff_getElem.mp hx with ⟨b, hb, rfl⟩
    simpa using (List.getD_eq_getElem blocks [] hb) ▸ h b hb

theorem allFull_replicate_false {cap nb : Nat} (hcap : 1 ≤ cap) (hnb : 1 ≤ nb) :
    allFull cap (List.replicate nb ([] : List (α × List ℚ))) = false := by
  rcases Nat.exists_eq_add_of_le hnb with ⟨m, rfl⟩
  rw [Nat.add_comm, List.replicate_succ]
  have h0 : ¬ (cap ≤ ([] : List (α × List ℚ)).length) := by
    simp only [List.length_nil]
    omega
  simp only [allFull, List.all_cons, Bool.and_eq_false_iff]
  left
  simpa using h0

/-- Full specification of the bucket-advance loop, given enough fuel and a
positive `label_size`: the result keeps the residue of the start index modulo
`label_size`, never decreases, lands either past the blocks or on a non-full
block, and every block it skipped (same residue, in `[idx, result)`) is
full. -/
theorem advanceIdx_spec (blocks : List (List (α × List ℚ))) (cap ls : Nat)
    (hls : 1 ≤ ls) :
    ∀ fuel idx, blocks.length ≤ idx + fuel * ls →
      (advanceIdx blocks cap ls fuel idx) % ls = idx % ls
      ∧ idx ≤ advanceIdx blocks cap ls fuel idx
      ∧ (blocks.length ≤ advanceIdx blocks cap ls fuel idx
         ∨ (advanceIdx blocks cap ls fuel idx < blocks.length
            ∧ (blocks.getD (advanceIdx blocks cap ls fuel idx) []).length < cap))
      ∧ (∀ b, idx ≤ b → b < advanceIdx blocks cap ls fuel idx →
          b % ls = idx % ls → cap ≤ (blocks.getD b []).length) := by
  intro fuel
  induction fuel with
  | zero =>
    intro idx hfuel
    have h0 : advanceIdx blocks cap ls 0 idx = idx := rfl
    rw [h0]
    refine ⟨rfl, le_refl idx, Or.inl (by omega), ?_⟩
    intro b hb1 hb2 hb3
    omega
  | succ fuel ih =>
    intro idx hfuel
    by_cases hcond : idx < blocks.length ∧ cap ≤ (blocks.getD idx []).length
    · have hstep : advanceIdx blocks cap ls (fuel + 1) idx
          = advanceIdx blocks cap ls fuel (idx + ls) := by
        simp only [advanceIdx, if_pos hcond]
      have hfuel2 : blocks.length ≤ (idx + ls) + fuel * ls := by
        have : (fuel + 1) * ls = fuel * ls + ls := Nat.succ_mul fuel ls
        omega
      rcases ih (idx + ls) hfuel2 with ⟨hmod, hle, hland, hskip⟩
      rw [hstep]
      refine ⟨by rw [hmod, Nat.add_mod_right], le_trans (Nat.le_add_right idx ls) hle,
        hland, ?_⟩
      intro b hb1 hb2 hbmod
      by_cases hbls : idx + ls ≤ b
      · exact hskip b hbls hb2 (by rw [hbmod, Nat.add_mod_right])
      · have hbeq : b = idx := by
          have hdvd : ls ∣ (b - idx) := (Nat.modEq_iff_dvd' hb1).mp hbmod.symm
          have hlt : b - idx < ls := by omega
          have h0 := Nat.eq_zero_of_dvd_of_lt hdvd hlt
          omega
        rw [hbeq]
        exact hcond.2
    · have hstep : advanceIdx blocks cap ls (fuel + 1) idx = idx := by
        simp only [advanceIdx, if_neg hcond]
      rw [hstep]
      refine ⟨rfl, le_refl idx, ?_, ?_⟩
      · rcases Nat.lt_or_ge idx blocks.length with h | h
        · right
          refine ⟨h, ?_⟩
          by_contra hcap
          exact hcond ⟨h, Nat.le_of_not_lt (fun hx => hcap (by omega))⟩
        · exact Or.inl h
      · intro b hb1 hb2
        omega

theorem placeDraw_length (cap ls : Nat) (blocks : List (List (α × List ℚ)))
    (e : α × List ℚ) : (placeDraw cap ls blocks e).length = blocks.length := by
  unfold placeDraw
  split
  · exact List.length_set blocks _ _
  · rfl

theorem iterFrom_length (src : Nat → α × List ℚ) (cap ls : Nat)
    (blocks : List (List (α × List ℚ))) (t : Nat) :
    ∀ d, (iterFrom src cap ls blocks t d).length = blocks.length := by
  intro d
  induction d with
  | zero => rfl
  | succ d ih => rw [iterFrom, placeDraw_length, ih]

/-- Case analysis of one draw, derived from `advanceIdx_spec`: either the draw
is discarded (and then every block at or above the class index with the class
residue is full), or it is appended to the first non-full block at or above
the class index with the class residue. -/
theorem placeDraw_spec (cap ls : Nat) (hls : 1 ≤ ls)
    (blocks : List (List (α × List ℚ))) (e : α × List ℚ) :
    (placeDraw cap ls blocks e = blocks
      ∧ (∀ b, b < blocks.length → npArgmax e.2 ≤ b →
          b % ls = (npArgmax e.2) % ls → cap ≤ (blocks.getD b []).length))
    ∨ (∃ r, r < blocks.length ∧ r % ls = (npArgmax e.2) % ls ∧ npArgmax e.2 ≤ r
        ∧ (blocks.getD r []).length < cap
        ∧ (∀ b, npArgmax e.2 ≤ b → b < r → b % ls = (npArgmax e.2) % ls →
            cap ≤ (blocks.getD b []).length)
        ∧ placeDraw cap ls blocks e = blocks.set r ((blocks.getD r []) ++ [e])) := by
  have hfuel : blocks.length ≤ npArgmax e.2 + (blocks.length + 1) * ls := by
    have h1 : (blocks.length + 1) * 1 ≤ (blocks.length + 1) * ls :=
      Nat.mul_le_mul_left (blocks.length + 1) hls
    omega
  rcases advanceIdx_spec blocks cap ls hls (blocks.length + 1) (npArgmax e.2) hfuel
    with ⟨hmod, hge, hland, hskip⟩
  rcases hland with hout | ⟨hin, hcap⟩
  · left
    have hnotlt : ¬ advanceIdx blocks cap ls (blocks.length + 1) (npArgmax e.2)
        < blocks.length := Nat.not_lt.mpr hout
    refine ⟨by simp only [placeDraw, if_neg hnotlt], ?_⟩
    intro b hb hcb hmodb
    exact hskip b hcb (lt_of_lt_of_le hb hout) hmodb
  · right
    exact ⟨advanceIdx blocks cap ls (blocks.length + 1) (npArgmax e.2),
      hin, hmod, hge, hcap, fun b hb1 hb2 hb3 => hskip b hb1 hb2 hb3,
      by simp only [placeDraw, if_pos hin]⟩

/-- Characterisation of the draw loop with its break, in terms of the pure
iteration `iterFrom`: starting from a not-all-full state, the loop runs some
`d ≤ fuel` draws, no state strictly before the last draw is all-full, and the
final state is all-full unless the fuel ran out. -/
theorem sampleLoopAux_spec (src : Nat → α × List ℚ) (cap ls : Nat) :
    ∀ fuel t blocks, allFull cap blocks = false →
      ∃ d, d ≤ fuel
        ∧ sampleLoopAux src cap ls fuel t blocks
            = (iterFrom src cap ls blocks t d, t + d)
        ∧ (∀ k < d, allFull cap (iterFrom src cap ls blocks t k) = false)
        ∧ (allFull cap (iterFrom src cap ls blocks t d) = true ∨ d = fuel) := by
  intro fuel
  induction fuel with
  | zero =>
    intro t blocks hnf
    exact ⟨0, le_refl 0, by simp [sampleLoopAux, iterFrom],
      fun k hk => absurd hk (Nat.not_lt_zero k), Or.inr rfl⟩
  | succ fuel ih =>
    intro t blocks hnf
    by_cases hidx : advanceIdx blocks cap ls (blocks.length + 1)
        (npArgmax (src t).2) < blocks.length
    · rcases Bool.eq_false_or_eq_true (allFull cap (placeDraw cap ls blocks (src t)))
        with hfull | hfull
      · refine ⟨1, by omega, ?_, ?_, Or.inl ?_⟩
        · have hres : sampleLoopAux src cap ls (fuel + 1) t blocks
              = (placeDraw cap ls blocks (src t), t + 1) := by
            simp only [sampleLoopAux]
            rw [if_pos hidx, if_pos hfull]
          rw [hres]
          simp [iterFrom]
        · intro k hk
          have hk0 : k = 0 := by omega
          subst hk0
          simpa [iterFrom] using hnf
        · simpa [iterFrom] using hfull
      · have hnot : ¬ (allFull cap (placeDraw cap ls blocks (src t)) = true) := by
          simp [hfull]
        rcases ih (t + 1) (placeDraw cap ls blocks (src t)) hfull
          with ⟨d, hd, heq, hprev, hdisj⟩
        refine ⟨d + 1, by omega, ?_, ?_, ?_⟩
        · calc sampleLoopAux src cap ls (fuel + 1) t blocks
              = sampleLoopAux src cap ls fuel (t + 1) (placeDraw cap ls blocks (src t)) := by
                simp only [sampleLoopAux]
                rw [if_pos hidx, if_neg hnot]
            _ = (iterFrom src cap ls (placeDraw cap ls blocks (src t)) (t + 1) d,
                  (t + 1) + d) := heq
            _ = (iterFrom src cap ls blocks t (d + 1), t + (d + 1)) := by
                rw [iterFrom_succ_front]
                have h2 : (t + 1) + d = t + (d + 1) := by omega
                rw [h2]
        · intro k hk
          cases k with
          | zero => simpa [iterFrom] using hnf
          | succ k =>
            rw [iterFrom_succ_front]
            exact hprev k (by omega)
        · rcases hdisj with h | h
          · left
            rw [iterFrom_succ_front]
            exact h
          · right
            omega
    · have hplace : placeDraw cap ls blocks (src t) = blocks := by
        simp only [placeDraw, if_neg hidx]
      rcases ih (t + 1) blocks hnf with ⟨d, hd, heq, hprev, hdisj⟩
      refine ⟨d + 1, by omega, ?_, ?_, ?_⟩
      · calc sampleLoopAux src cap ls (fuel + 1) t blocks
            = sampleLoopAux src cap ls fuel (t + 1) blocks := by
              simp only [sampleLoopAux]
              rw [if_neg hidx]
          _ = (iterFrom src cap ls blocks (t + 1) d, (t + 1) + d) := heq
          _ = (iterFrom src cap ls blocks t (d + 1), t + (d + 1)) := by
              rw [iterFrom_succ_front, hplace]
              have h2 : (t + 1) + d = t + (d + 1) := by omega
              rw [h2]
      · intro k hk
        cases k with
        | zero => simpa [iterFrom] using hnf
        | succ k =>
          rw [iterFrom_succ_front, hplace]
          exact hprev k (by omega)
      · rcases hdisj with h | h
        · left
          rw [iterFrom_succ_front, hplace]
          exact h
        · right
          omega

/-! ## Lemmas for the grid-filling phase -/

theorem gridDims_ge_one (ts : TrainingSetInfo) (size : List Char) :
    1 ≤ (gridDims ts size).1 ∧ 1 ≤ (gridDims ts size).2 := by
  simp only [gridDims]
  by_cases h8 : size = "8k".toList
  · subst h8
    constructor
    · simpa using le_trans (by norm_num) (npClip_lower (a := 7680 / ts.width) (by norm_num : (7:Nat) ≤ 32))
    · simpa using le_trans (by norm_num) (npClip_lower (a := 4320 / ts.height) (by norm_num : (4:Nat) ≤ 32))
  · by_cases h4 : size = "4k".toList
    · subst h4
      constructor
      · simpa [h8] using le_trans (by norm_num) (npClip_lower (a := 3840 / ts.width) (by norm_num : (7:Nat) ≤ 32))
      · simpa [h8] using le_trans (by norm_num) (npClip_lower (a := 2160 / ts.height) (by norm_num : (4:Nat) ≤ 32))
    · by_cases h1 : size = "1080p".toList
      · subst h1
        constructor
        · simpa [h8, h4] using le_trans (by norm_num) (npClip_lower (a := 1920 / ts.width) (by norm_num : (3:Nat) ≤ 32))
        · simpa [h8, h4] using le_trans (by norm_num) (npClip_lower (a := 1080 / ts.height) (by norm_num : (2:Nat) ≤ 32))
      · rw [if_neg h8, if_neg h4, if_neg h1]
        exact ⟨le_refl 1, le_refl 1⟩

theorem blockShape_pos (layout : ClassLayout) (gw gh : Nat)
    (hgw : 1 ≤ gw) (hgh : 1 ≤ gh) :
    1 ≤ (blockShape layout gw gh).1 ∧ 1 ≤ (blockShape layout gw gh).2 := by
  cases layout <;> simp [blockShape] <;> omega

theorem set_getD_cases {β : Type} (l : List β) (i j : Nat) (a d : β) :
    (l.set i a).getD j d = l.getD j d ∨ (l.set i a).getD j d = a := by
  by_cases hij : i = j
  · subst hij
    by_cases hlen : i < l.length
    · right
      rw [List.getD_eq_getElem?_getD, List.getElem?_set, if_pos rfl, if_pos hlen]
      rfl
    · left
      rw [List.getD_eq_getElem?_getD, List.getElem?_set, if_pos rfl, if_neg hlen,
        List.getD_eq_getElem?_getD, List.getElem?_eq_none (by omega)]
  · left
    rw [List.getD_eq_getElem?_getD, List.getElem?_set_ne hij,
      ← List.getD_eq_getElem?_getD]

theorem set_getD_ne {β : Type} (l : List β) (i j : Nat) (a d : β) (hij : i ≠ j) :
    (l.set i a).getD j d = l.getD j d := by
  rw [List.getD_eq_getElem?_getD, List.getElem?_set_ne hij,
    ← List.getD_eq_getElem?_getD]

/-- Cells no write targets keep their initial value through the placement
fold. -/
theorem writeFold_preserve (nw bw bh gw gh cell : Nat) (d1 : α) (d2 : List ℚ) :
    ∀ (ws : List ((Nat × Nat) × (α × List ℚ))) (init : List α × List (List ℚ)),
      (∀ w ∈ ws, ¬(cellX nw bw w.1.1 w.1.2 < gw ∧ cellY nw bw bh w.1.1 w.1.2 < gh
          ∧ cellX nw bw w.1.1 w.1.2 + cellY nw bw bh w.1.1 w.1.2 * gw = cell)) →
      (ws.foldl (writeCell nw bw bh gw gh) init).1.getD cell d1 = init.1.getD cell d1
      ∧ (ws.foldl (writeCell nw bw bh gw gh) init).2.getD cell d2 = init.2.getD cell d2 := by
  intro ws
  induction ws with
  | nil => exact fun init _ => ⟨rfl, rfl⟩
  | cons w rest ih =>
    intro init h
    have hw := h w (List.mem_cons_self w rest)
    have hstep1 : (writeCell nw bw bh gw gh init w).1.getD cell d1
        = init.1.getD cell d1 := by
      by_cases hg : cellX nw bw w.1.1 w.1.2 < gw ∧ cellY nw bw bh w.1.1 w.1.2 < gh
      · have hne : cellX nw bw w.1.1 w.1.2 + cellY nw bw bh w.1.1 w.1.2 * gw ≠ cell :=
          fun he => hw ⟨hg.1, hg.2, he⟩
        simp only [writeCell, if_pos hg]
        exact set_getD_ne _ _ _ _ _ hne
      · simp only [writeCell, if_neg hg]
    have hstep2 : (writeCell nw bw bh gw gh init w).2.getD cell d2
        = init.2.getD cell d2 := by
      by_cases hg : cellX nw bw w.1.1 w.1.2 < gw ∧ cellY nw bw bh w.1.1 w.1.2 < gh
      · have hne : cellX nw bw w.1.1 w.1.2 + cellY nw bw bh w.1.1 w.1.2 * gw ≠ cell :=
          fun he => hw ⟨hg.1, hg.2, he⟩
        simp only [writeCell, if_pos hg]
        exact set_getD_ne _ _ _ _ _ hne
      · simp only [writeCell, if_neg hg]
    rcases ih (writeCell nw bw bh gw gh init w)
      (fun w2 hw2 => h w2 (List.mem_cons_of_mem w hw2)) with ⟨ih1, ih2⟩
    rw [List.foldl_cons]
    exact ⟨ih1.trans hstep1, ih2.trans hstep2⟩

/-- Membership in the flattened write list of the placement loop: `((i,j),e)`
is a write exactly when `e` is entry `j` of block `i`. -/
theorem mem_blockWrites (blocks : List (List (α × List ℚ)))
    (i j : Nat) (e : α × List ℚ) :
    ((i, j), e) ∈ blockWrites blocks ↔ ∃ b, blocks[i]? = some b ∧ b[j]? = some e := by
  constructor
  · intro h
    rcases List.mem_flatten.mp h with ⟨inner, hinner, hmem⟩
    rcases List.mem_map.mp hinner with ⟨ib, hib, rfl⟩
    rcases List.mem_map.mp hmem with ⟨je, hje, heq⟩
    have h1 : ib.1 = i := congrArg (fun p => p.1.1) heq
    have h2 : je.1 = j := congrArg (fun p => p.1.2) heq
    have h3 : je.2 = e := congrArg (fun p => p.2) heq
    refine ⟨ib.2, ?_, ?_⟩
    · rw [← h1]
      exact List.mem_enum_iff_getElem?.mp hib
    · rw [← h2, ← h3]
      exact List.mem_enum_iff_getElem?.mp hje
  · rintro ⟨b, hb, he⟩
    apply List.mem_flatten.mpr
    refine ⟨b.enum.map (fun je => ((i, je.1), je.2)), ?_, ?_⟩
    · apply List.mem_map.mpr
      exact ⟨(i, b), List.mem_enum_iff_getElem?.mpr hb, rfl⟩
    · apply List.mem_map.mpr
      exact ⟨(j, e), List.mem_enum_iff_getElem?.mpr he, rfl⟩

/-- C1: for every class-balanced layout, the rejection-sampling loop of
`setup_snapshot_image_grid` makes at most 1,000,000 single-example draws,
its final state is the pure iteration of the draw body at the returned draw
count, no state strictly before the stopping point has all blocks holding
`bw*bh` entries (it stops as soon as they all do), the final state is all-full
unless the draw cap was exhausted, and the function still returns normally in
that case: every grid cell no block entry is placed into keeps the zero value
(`np.zeros`) it was initialised with, in both the `reals` and the `labels`
arrays, with no error and no degradation signal. -/
theorem C1_bounded_rejection_sampler {α : Type} [Zero α]
    (ts : TrainingSetInfo) (src : Nat → α × List ℚ) (size : List Char)
    (layout : ClassLayout) (gw gh bw bh nw nh : Nat)
    (hgw : gw = (gridDims ts size).1) (hgh : gh = (gridDims ts size).2)
    (hbw : bw = (blockShape layout gw gh).1) (hbh : bh = (blockShape layout gw gh).2)
    (hnw : nw = (gw - 1) / bw + 1) (hnh : nh = (gh - 1) / bh + 1)
    (hls : 1 ≤ ts.label_size) :
    (sampleLoop src (bw * bh) ts.label_size (nw * nh)).2 ≤ 1000000
    ∧ (sampleLoop src (bw * bh) ts.label_size (nw * nh)).1
        = iterBlocks src (bw * bh) ts.label_size (nw * nh)
            (sampleLoop src (bw * bh) ts.label_size (nw * nh)).2
    ∧ (∀ k < (sampleLoop src (bw * bh) ts.label_size (nw * nh)).2,
        allFull (bw * bh) (iterBlocks src (bw * bh) ts.label_size (nw * nh) k) = false)
    ∧ (allFull (bw * bh) ((sampleLoop src (bw * bh) ts.label_size (nw * nh)).1) = true
        ∨ (sampleLoop src (bw * bh) ts.label_size (nw * nh)).2 = 1000000)
    ∧ (∀ cell, cell < gw * gh →
        (∀ i j, i < nw * nh →
            j < ((sampleLoop src (bw * bh) ts.label_size (nw * nh)).1.getD i []).length →
            ¬(cellX nw bw i j < gw ∧ cellY nw bw bh i j < gh
              ∧ cellX nw bw i j + cellY nw bw bh i j * gw = cell)) →
        (setup_snapshot_image_grid ts src size layout).2.1.getD cell 0 = 0
        ∧ (setup_snapshot_image_grid ts src size layout).2.2.getD cell []
            = List.replicate ts.label_size 0) := by
  subst hgw hgh hbw hbh hnw hnh
  have hgw1 := (gridDims_ge_one ts size).1
  have hgh1 := (gridDims_ge_one ts size).2
  have hbw1 := (blockShape_pos layout _ _ hgw1 hgh1).1
  have hbh1 := (blockShape_pos layout _ _ hgw1 hgh1).2
  have hcap : 1 ≤ (blockShape layout (gridDims ts size).1 (gridDims ts size).2).1
      * (blockShape layout (gridDims ts size).1 (gridDims ts size).2).2 :=
    Nat.one_le_iff_ne_zero.mpr (Nat.mul_ne_zero (by omega) (by omega))
  have hnb : 1 ≤ (((gridDims ts size).1 - 1)
        / (blockShape layout (gridDims ts size).1 (gridDims ts size).2).1 + 1)
      * (((gridDims ts size).2 - 1)
        / (blockShape layout (gridDims ts size).1 (gridDims ts size).2).2 + 1) :=
    Nat.one_le_iff_ne_zero.mpr (Nat.mul_ne_zero (Nat.succ_ne_zero _) (Nat.succ_ne_zero _))
  have hnf0 := allFull_replicate_false (α := α) hcap hnb
  rcases sampleLoopAux_spec src
      ((blockShape layout (gridDims ts size).1 (gridDims ts size).2).1
        * (blockShape layout (gridDims ts size).1 (gridDims ts size).2).2)
      ts.label_size 1000000 0 _ hnf0 with ⟨d, hd, heq, hprev, hdisj⟩
  have hloop : sampleLoop src
      ((blockShape layout (gridDims ts size).1 (gridDims ts size).2).1
        * (blockShape layout (gridDims ts size).1 (gridDims ts size).2).2)
      ts.label_size
      ((((gridDims ts size).1 - 1)
          / (blockShape layout (gridDims ts size).1 (gridDims ts size).2).1 + 1)
        * (((gridDims ts size).2 - 1)
          / (blockShape layout (gridDims ts size).1 (gridDims ts size).2).2 + 1))
      = (iterFrom src
          ((blockShape layout (gridDims ts size).1 (gridDims ts size).2).1
            * (blockShape layout (gridDims ts size).1 (gridDims ts size).2).2)
          ts.label_size
          (List.replicate
            ((((gridDims ts size).1 - 1)
                / (blockShape layout (gridDims ts size).1 (gridDims ts size).2).1 + 1)
              * (((gridDims ts size).2 - 1)
                / (blockShape layout (gridDims ts size).1 (gridDims ts size).2).2 + 1))
            [])
          0 d, d) := by
    rw [sampleLoop, heq, Nat.zero_add]
  refine ⟨?_, ?_, ?_, ?_, ?_⟩
  · rw [hloop]
    exact hd
  · rw [hloop]
    rfl
  · intro k hk
    rw [hloop] at hk
    exact hprev k hk
  · rcases hdisj with h | h
    · left
      rw [hloop]
      exact h
    · right
      rw [hloop]
      exact h
  · intro cell hcell hnone
    have hlen : ((sampleLoop src
        ((blockShape layout (gridDims ts size).1 (gridDims ts size).2).1
          * (blockShape layout (gridDims ts size).1 (gridDims ts size).2).2)
        ts.label_size
        ((((gridDims ts size).1 - 1)
            / (blockShape layout (gridDims ts size).1 (gridDims ts size).2).1 + 1)
          * (((gridDims ts size).2 - 1)
            / (blockShape layout (gridDims ts size).1 (gridDims ts size).2).2 + 1))).1).length
        = (((gridDims ts size).1 - 1)
            / (blockShape layout (gridDims ts size).1 (gridDims ts size).2).1 + 1)
          * (((gridDims ts size).2 - 1)
            / (blockShape layout (gridDims ts size).1 (gridDims ts size).2).2 + 1) := by
      rw [hloop]
      show (iterFrom src _ _ _ 0 d).length = _
      rw [iterFrom_length, List.length_replicate]
    have hno : ∀ w ∈ blockWrites ((sampleLoop src
        ((blockShape layout (gridDims ts size).1 (gridDims ts size).2).1
          * (blockShape layout (gridDims ts size).1 (gridDims ts size).2).2)
        ts.label_size
        ((((gridDims ts size).1 - 1)
            / (blockShape layout (gridDims ts size).1 (gridDims ts size).2).1 + 1)
          * (((gridDims ts size).2 - 1)
            / (blockShape layout (gridDims ts size).1 (gridDims ts size).2).2 + 1))).1),
        ¬(cellX (((gridDims ts size).1 - 1)
              / (blockShape layout (gridDims ts size).1 (gridDims ts size).2).1 + 1)
            (blockShape layout (gridDims ts size).1 (gridDims ts size).2).1 w.1.1 w.1.2
            < (gridDims ts size).1
          ∧ cellY (((gridDims ts size).1 - 1)
              / (blockShape layout (gridDims ts size).1 (gridDims ts size).2).1 + 1)
            (blockShape layout (gridDims ts size).1 (gridDims ts size).2).1
            (blockShape layout (gridDims ts size).1 (gridDims ts size).2).2 w.1.1 w.1.2
            < (gridDims ts size).2
          ∧ cellX (((gridDims ts size).1 - 1)
              / (blockShape layout (gridDims ts size).1 (gridDims ts size).2).1 + 1)
            (blockShape layout (gridDims ts size).1 (gridDims ts size).2).1 w.1.1 w.1.2
            + cellY (((gridDims ts size).1 - 1)
              / (blockShape layout (gridDims ts size).1 (gridDims ts size).2).1 + 1)
            (blockShape layout (gridDims ts size).1 (gridDims ts size).2).1
            (blockShape layout (gridDims ts size).1 (gridDims ts size).2).2 w.1.1 w.1.2
            * (gridDims ts size).1 = cell) := by
      intro w hw
      rcases (mem_blockWrites _ w.1.1 w.1.2 w.2).mp hw with ⟨b, hb, he⟩
      have hi : w.1.1 < (((gridDims ts size).1 - 1)
            / (blockShape layout (gridDims ts size).1 (gridDims ts size).2).1 + 1)
          * (((gridDims ts size).2 - 1)
            / (blockShape layout (gridDims ts size).1 (gridDims ts size).2).2 + 1) := by
        rcases List.getElem?_eq_some.mp hb with ⟨h2, _⟩
        rw [hlen] at h2
        exact h2
      have hbD : ((sampleLoop src
          ((blockShape layout (gridDims ts size).1 (gridDims ts size).2).1
            * (blockShape layout (gridDims ts size).1 (gridDims ts size).2).2)
          ts.label_size
          ((((gridDims ts size).1 - 1)
              / (blockShape layout (gridDims ts size).1 (gridDims ts size).2).1 + 1)
            * (((gridDims ts size).2 - 1)
              / (blockShape layout (gridDims ts size).1 (gridDims ts size).2).2 + 1))).1.getD
          w.1.1 ([] : List (α × List ℚ))) = b := by
        rw [List.getD_eq_getElem?_getD, hb]
        rfl
      have hj : w.1.2 < ((sampleLoop src
          ((blockShape layout (gridDims ts size).1 (gridDims ts size).2).1
            * (blockShape layout (gridDims ts size).1 (gridDims ts size).2).2)
          ts.label_size
          ((((gridDims ts size).1 - 1)
              / (blockShape layout (gridDims ts size).1 (gridDims ts size).2).1 + 1)
            * (((gridDims ts size).2 - 1)
              / (blockShape layout (gridDims ts size).1 (gridDims ts size).2).2 + 1))).1.getD
            w.1.1 []).length := by
        rw [hbD]
        rcases List.getElem?_eq_some.mp he with ⟨h2, _⟩
        exact h2
      exact hnone w.1.1 w.1.2 hi hj
    have hpres := writeFold_preserve
      (((gridDims ts size).1 - 1)
          / (blockShape layout (gridDims ts size).1 (gridDims ts size).2).1 + 1)
      (blockShape layout (gridDims ts size).1 (gridDims ts size).2).1
      (blockShape layout (gridDims ts size).1 (gridDims ts size).2).2
      (gridDims ts size).1 (gridDims ts size).2 cell (0 : α) []
      _ (List.replicate ((gridDims ts size).1 * (gridDims ts size).2) (0 : α),
         List.replicate ((gridDims ts size).1 * (gridDims ts size).2)
           (List.replicate ts.label_size (0 : ℚ))) hno
    simp only [setup_snapshot_image_grid, fillGrid]
    constructor
    · rw [hpres.1, List.getD_eq_getElem?_getD, List.getElem?_replicate, if_pos hcell]
      rfl
    · rw [hpres.2, List.getD_eq_getElem?_getD, List.getElem?_replicate, if_pos hcell]
      rfl

/-- Witness for C1: 256×256 10-class training set, `1080p` preset
(`gw = 7, gh = 4`), `row_per_class` layout (`bw = 7, bh = 1, nw = 1, nh = 4`),
constant data source. -/
theorem C1_bounded_rejection_sampler_witness :
    1 ≤ (10:Nat) ∧
    (sampleLoop (fun _ => ((0:Int), [(1:ℚ), 0])) (7 * 1) 10 (1 * 4)).2 ≤ 1000000 := by
  refine ⟨by norm_num, ?_⟩
  exact (C1_bounded_rejection_sampler (⟨3, 256, 256, 10⟩ : TrainingSetInfo)
    (fun _ => ((0:Int), [(1:ℚ), 0])) "1080p".toList ClassLayout.row_per_class
    7 4 7 1 1 4 (by decide) (by decide) rfl rfl rfl rfl (by norm_num)).1

/-! ## Lemmas for claim C10 -/

theorem advanceIdx_addMul (blocks : List (List (α × List ℚ))) (cap ls : Nat) :
    ∀ fuel idx, ∃ k, advanceIdx blocks cap ls fuel idx = idx + k * ls := by
  intro fuel
  induction fuel with
  | zero => intro idx; exact ⟨0, by simp [advanceIdx]⟩
  | succ fuel ih =>
    intro idx
    by_cases hc : idx < blocks.length ∧ cap ≤ (blocks.getD idx []).length
    · rcases ih (idx + ls) with ⟨k, hk⟩
      refine ⟨k + 1, ?_⟩
      simp only [advanceIdx, if_pos hc]
      rw [hk]
      ring
    · refine ⟨0, ?_⟩
      simp only [advanceIdx, if_neg hc]
      ring

theorem npArgmaxAux_const_zero : ∀ (n cur bi : Nat),
    npArgmaxAux (List.replicate n (0:ℚ)) cur bi 0 = bi := by
  intro n
  induction n with
  | zero => intro cur bi; rfl
  | succ n ih =>
    intro cur bi
    rw [List.replicate_succ]
    simp only [npArgmaxAux, if_neg (lt_irrefl (0:ℚ))]
    exact ih _ _

theorem npArgmax_replicate_zero (n : Nat) : npArgmax (List.replicate n (0:ℚ)) = 0 := by
  cases n with
  | zero => rfl
  | succ n =>
    rw [List.replicate_succ]
    exact npArgmaxAux_const_zero n 1 0

/-- When `label_size` exceeds the number of blocks, one placed draw preserves
the invariant that every entry of block `i` has class index `i`. -/
theorem placeDraw_entry_class (cap ls : Nat) (hls : 1 ≤ ls)
    (blocks : List (List (α × List ℚ))) (e : α × List ℚ)
    (hnb : blocks.length < ls)
    (hinv : ∀ i, i < blocks.length → ∀ x ∈ blocks.getD i [], npArgmax x.2 = i) :
    ∀ i, i < (placeDraw cap ls blocks e).length →
      ∀ x ∈ (placeDraw cap ls blocks e).getD i [], npArgmax x.2 = i := by
  rcases placeDraw_spec cap ls hls blocks e with ⟨heq, _⟩ | ⟨r, hr, hmod, hge, _, _, heq⟩
  · rw [heq]
    exact hinv
  · rw [heq]
    intro i hi x hx
    rw [List.length_set] at hi
    by_cases hir : i = r
    · subst hir
      have hset : (blocks.set i (blocks.getD i [] ++ [e])).getD i []
          = blocks.getD i [] ++ [e] := by
        rw [List.getD_eq_getElem?_getD, List.getElem?_set, if_pos rfl, if_pos hr]
        rfl
      rw [hset] at hx
      rcases List.mem_append.mp hx with h | h
      · exact hinv i hr x h
      · rcases List.mem_singleton.mp h with rfl
        have h1 : npArgmax x.2 < ls := by omega
        have h2 : i < ls := by omega
        rw [Nat.mod_eq_of_lt h2, Nat.mod_eq_of_lt h1] at hmod
        omega
    · rw [set_getD_ne _ _ _ _ _ (fun h => hir h.symm)] at hx
      exact hinv i hi x hx

/-- When `label_size` exceeds the number of blocks, every entry of block `i`
of any reachable sampler state has class index exactly `i` (no overflow is
possible, and classes at or above the block count are never placed). -/
theorem iterBlocks_entry_class (src : Nat → α × List ℚ) (cap ls nb : Nat)
    (hls : 1 ≤ ls) (hnb : nb < ls) :
    ∀ d i, i < nb → ∀ x ∈ (iterBlocks src cap ls nb d).getD i [], npArgmax x.2 = i := by
  intro d
  induction d with
  | zero =>
    intro i hi x hx
    exfalso
    have : (iterBlocks src cap ls nb 0).getD i [] = [] := by
      show (List.replicate nb ([] : List (α × List ℚ))).getD i [] = []
      rw [List.getD_eq_getElem?_getD, List.getElem?_replicate]
      split <;> rfl
    rw [this] at hx
    exact List.not_mem_nil x hx
  | succ d ih =>
    have hlen : (iterBlocks src cap ls nb d).length = nb := by
      show (iterFrom src cap ls (List.replicate nb []) 0 d).length = nb
      rw [iterFrom_length, List.length_replicate]
    intro i hi x hx
    have hstep : iterBlocks src cap ls nb (d + 1)
        = placeDraw cap ls (iterBlocks src cap ls nb d) (src d) := by
      show iterFrom src cap ls (List.replicate nb []) 0 (d + 1) = _
      rw [iterFrom, Nat.zero_add]
      rfl
    rw [hstep] at hx
    exact placeDraw_entry_class cap ls hls _ (src d) (by omega)
      (fun i2 hi2 => ih i2 (by omega))
      i (by rw [placeDraw_length, hlen]; exact hi) x hx

/-- Each label cell of the filled grid holds either its initial value or the
label of one of the writes. -/
theorem writeFold_label_values (nw bw bh gw gh cell : Nat) (d2 : List ℚ) :
    ∀ (ws : List ((Nat × Nat) × (α × List ℚ))) (init : List α × List (List ℚ)),
      (ws.foldl (writeCell nw bw bh gw gh) init).2.getD cell d2 = init.2.getD cell d2
      ∨ ∃ w ∈ ws, (ws.foldl (writeCell nw bw bh gw gh) init).2.getD cell d2 = w.2.2 := by
  intro ws
  induction ws with
  | nil => intro init; exact Or.inl rfl
  | cons w rest ih =>
    intro init
    rw [List.foldl_cons]
    rcases ih (writeCell nw bw bh gw gh init w) with h | ⟨w2, hw2, he⟩
    · by_cases hg : cellX nw bw w.1.1 w.1.2 < gw ∧ cellY nw bw bh w.1.1 w.1.2 < gh
      · rcases set_getD_cases init.2
          (cellX nw bw w.1.1 w.1.2 + cellY nw bw bh w.1.1 w.1.2 * gw) cell w.2.2 d2
          with h2 | h2
        · left
          rw [h]
          simp only [writeCell, if_pos hg]
          exact h2
        · right
          refine ⟨w, List.mem_cons_self w rest, ?_⟩
          rw [h]
          simp only [writeCell, if_pos hg]
          exact h2
      · left
        rw [h]
        simp only [writeCell, if_neg hg]
    · right
      exact ⟨w2, List.mem_cons_of_mem w hw2, he⟩

/-- The final state of `sampleLoop` is an iterate of the draw body, no earlier
iterate is all-full, and the final one is all-full unless the cap ran out. -/
theorem sampleLoop_final (src : Nat → α × List ℚ) (cap ls nb : Nat)
    (hcap : 1 ≤ cap) (hnb : 1 ≤ nb) :
    ∃ d, d ≤ 1000000
      ∧ sampleLoop src cap ls nb = (iterBlocks src cap ls nb d, d)
      ∧ (∀ k < d, allFull cap (iterBlocks src cap ls nb k) = false)
      ∧ (allFull cap (iterBlocks src cap ls nb d) = true ∨ d = 1000000) := by
  have hnf0 := allFull_replicate_false (α := α) hcap hnb
  rcases sampleLoopAux_spec src cap ls 1000000 0 _ hnf0 with ⟨d, hd, heq, hprev, hdisj⟩
  refine ⟨d, hd, ?_, hprev, hdisj⟩
  rw [sampleLoop, heq, Nat.zero_add]
  rfl

/-- C10: in every class-balanced layout, a draw whose class index is at least
`nw * nh` is discarded without being placed (the bucket-advance step only ever
moves an index `c` to `c + k * label_size`); and when `label_size` exceeds
`nw * nh`, the class index of every label cell of the returned grid is below
`nw * nh` — examples of classes `≥ nw * nh` never appear in the grid. -/
theorem C10_class_discard {α : Type} [Zero α]
    (ts : TrainingSetInfo) (src : Nat → α × List ℚ) (size : List Char)
    (layout : ClassLayout) (gw gh bw bh nw nh : Nat)
    (hgw : gw = (gridDims ts size).1) (hgh : gh = (gridDims ts size).2)
    (hbw : bw = (blockShape layout gw gh).1) (hbh : bh = (blockShape layout gw gh).2)
    (hnw : nw = (gw - 1) / bw + 1) (hnh : nh = (gh - 1) / bh + 1)
    (hls : 1 ≤ ts.label_size) :
    (∀ (blocks : List (List (α × List ℚ))) (e : α × List ℚ),
        blocks.length = nw * nh → nw * nh ≤ npArgmax e.2 →
        placeDraw (bw * bh) ts.label_size blocks e = blocks)
    ∧ (∀ (blocks : List (List (α × List ℚ))) (fuel idx : Nat),
        ∃ k, advanceIdx blocks (bw * bh) ts.label_size fuel idx
          = idx + k * ts.label_size)
    ∧ (nw * nh < ts.label_size →
        ∀ cell, cell < gw * gh →
          npArgmax ((setup_snapshot_image_grid ts src size layout).2.2.getD cell [])
            < nw * nh) := by
  subst hgw hgh hbw hbh hnw hnh
  refine ⟨?_, fun blocks fuel idx => advanceIdx_addMul blocks _ _ fuel idx, ?_⟩
  · intro blocks e hlen hargs
    have hnotlt : ¬ (npArgmax e.2 < blocks.length) := by omega
    have hcond : ¬ (npArgmax e.2 < blocks.length
        ∧ (blockShape layout (gridDims ts size).1 (gridDims ts size).2).1
            * (blockShape layout (gridDims ts size).1 (gridDims ts size).2).2
          ≤ (blocks.getD (npArgmax e.2) []).length) := fun hc => hnotlt hc.1
    have hadv : advanceIdx blocks
        ((blockShape layout (gridDims ts size).1 (gridDims ts size).2).1
          * (blockShape layout (gridDims ts size).1 (gridDims ts size).2).2)
        ts.label_size (blocks.length + 1) (npArgmax e.2) = npArgmax e.2 := by
      simp only [advanceIdx, if_neg hcond]
    unfold placeDraw
    rw [hadv, if_neg hnotlt]
  · intro hover cell hcell
    have hgw1 := (gridDims_ge_one ts size).1
    have hgh1 := (gridDims_ge_one ts size).2
    have hbw1 := (blockShape_pos layout _ _ hgw1 hgh1).1
    have hbh1 := (blockShape_pos layout _ _ hgw1 hgh1).2
    have hcap : 1 ≤ (blockShape layout (gridDims ts size).1 (gridDims ts size).2).1
        * (blockShape layout (gridDims ts size).1 (gridDims ts size).2).2 :=
      Nat.one_le_iff_ne_zero.mpr (Nat.mul_ne_zero (by omega) (by omega))
    have hnb : 1 ≤ (((gridDims ts size).1 - 1)
          / (blockShape layout (gridDims ts size).1 (gridDims ts size).2).1 + 1)
        * (((gridDims ts size).2 - 1)
          / (blockShape layout (gridDims ts size).1 (gridDims ts size).2).2 + 1) :=
      Nat.one_le_iff_ne_zero.mpr
        (Nat.mul_ne_zero (Nat.succ_ne_zero _) (Nat.succ_ne_zero _))
    rcases sampleLoop_final src
        ((blockShape layout (gridDims ts size).1 (gridDims ts size).2).1
          * (blockShape layout (gridDims ts size).1 (gridDims ts size).2).2)
        ts.label_size
        ((((gridDims ts size).1 - 1)
            / (blockShape layout (gridDims ts size).1 (gridDims ts size).2).1 + 1)
          * (((gridDims ts size).2 - 1)
            / (blockShape layout (gridDims ts size).1 (gridDims ts size).2).2 + 1))
        hcap hnb with ⟨d, hd, hloop, hprev, hdisj⟩
    have hblocks : (sampleLoop src
        ((blockShape layout (gridDims ts size).1 (gridDims ts size).2).1
          * (blockShape layout (gridDims ts size).1 (gridDims ts size).2).2)
        ts.label_size
        ((((gridDims ts size).1 - 1)
            / (blockShape layout (gridDims ts size).1 (gridDims ts size).2).1 + 1)
          * (((gridDims ts size).2 - 1)
            / (blockShape layout (gridDims ts size).1 (gridDims ts size).2).2 + 1))).1
        = iterBlocks src
            ((blockShape layout (gridDims ts size).1 (gridDims ts size).2).1
              * (blockShape layout (gridDims ts size).1 (gridDims ts size).2).2)
            ts.label_size
            ((((gridDims ts size).1 - 1)
                / (blockShape layout (gridDims ts size).1 (gridDims ts size).2).1 + 1)
              * (((gridDims ts size).2 - 1)
                / (blockShape layout (gridDims ts size).1 (gridDims ts size).2).2 + 1))
            d := congrArg Prod.fst hloop
    simp only [setup_snapshot_image_grid, fillGrid]
    rcases writeFold_label_values
        ((((gridDims ts size).1 - 1)
            / (blockShape layout (gridDims ts size).1 (gridDims ts size).2).1 + 1))
        ((blockShape layout (gridDims ts size).1 (gridDims ts size).2).1)
        ((blockShape layout (gridDims ts size).1 (gridDims ts size).2).2)
        ((gridDims ts size).1) ((gridDims ts size).2) cell []
        (blockWrites ((sampleLoop src
          ((blockShape layout (gridDims ts size).1 (gridDims ts size).2).1
            * (blockShape layout (gridDims ts size).1 (gridDims ts size).2).2)
          ts.label_size
          ((((gridDims ts size).1 - 1)
              / (blockShape layout (gridDims ts size).1 (gridDims ts size).2).1 + 1)
            * (((gridDims ts size).2 - 1)
              / (blockShape layout (gridDims ts size).1 (gridDims ts size).2).2 + 1))).1))
        (List.replicate ((gridDims ts size).1 * (gridDims ts size).2) (0 : α),
         List.replicate ((gridDims ts size).1 * (gridDims ts size).2)
           (List.replicate ts.label_size (0 : ℚ)))
        with h | ⟨w, hw, he⟩
    · rw [h, List.getD_eq_getElem?_getD, List.getElem?_replicate, if_pos hcell]
      show npArgmax (List.replicate ts.label_size (0:ℚ)) < _
      rw [npArgmax_replicate_zero]
      omega
    · rw [he]
      rcases (mem_blockWrites _ w.1.1 w.1.2 w.2).mp hw with ⟨b, hb, hentry⟩
      rcases List.getElem?_eq_some.mp hb with ⟨hbl, hbv⟩
      rcases List.getElem?_eq_some.mp hentry with ⟨hjl, hjv⟩
      have hblen : w.1.1 < (((gridDims ts size).1 - 1)
            / (blockShape layout (gridDims ts size).1 (gridDims ts size).2).1 + 1)
          * (((gridDims ts size).2 - 1)
            / (blockShape layout (gridDims ts size).1 (gridDims ts size).2).2 + 1) := by
        rw [hblocks] at hbl
        have hl2 : (iterBlocks src
            ((blockShape layout (gridDims ts size).1 (gridDims ts size).2).1
              * (blockShape layout (gridDims ts size).1 (gridDims ts size).2).2)
            ts.label_size
            ((((gridDims ts size).1 - 1)
                / (blockShape layout (gridDims ts size).1 (gridDims ts size).2).1 + 1)
              * (((gridDims ts size).2 - 1)
                / (blockShape layout (gridDims ts size).1 (gridDims ts size).2).2 + 1))
            d).length
            = (((gridDims ts size).1 - 1)
                / (blockShape layout (gridDims ts size).1 (gridDims ts size).2).1 + 1)
              * (((gridDims ts size).2 - 1)
                / (blockShape layout (gridDims ts size).1 (gridDims ts size).2).2 + 1) := by
          show (iterFrom src _ _ (List.replicate _ []) 0 d).length = _
          rw [iterFrom_length, List.length_replicate]
        omega
      have hmem : w.2 ∈ (iterBlocks src
          ((blockShape layout (gridDims ts size).1 (gridDims ts size).2).1
            * (blockShape layout (gridDims ts size).1 (gridDims ts size).2).2)
          ts.label_size
          ((((gridDims ts size).1 - 1)
              / (blockShape layout (gridDims ts size).1 (gridDims ts size).2).1 + 1)
            * (((gridDims ts size).2 - 1)
              / (blockShape layout (gridDims ts size).1 (gridDims ts size).2).2 + 1))
          d).getD w.1.1 [] := by
        rw [← hblocks, List.getD_eq_getElem?_getD, hb]
        show w.2 ∈ b
        rw [← hjv]
        exact List.getElem_mem hjl
      have := iterBlocks_entry_class src
          ((blockShape layout (gridDims ts size).1 (gridDims ts size).2).1
            * (blockShape layout (gridDims ts size).1 (gridDims ts size).2).2)
          ts.label_size
          ((((gridDims ts size).1 - 1)
              / (blockShape layout (gridDims ts size).1 (gridDims ts size).2).1 + 1)
            * (((gridDims ts size).2 - 1)
              / (blockShape layout (gridDims ts size).1 (gridDims ts size).2).2 + 1))
          hls hover d w.1.1 hblen w.2 hmem
      rw [this]
      exact hblen

/-- Witness for C10: with `nw * nh = 4` blocks and `label_size = 10`, a draw
of class 4 (one-hot at index 4, equal to the block count) is discarded. -/
theorem C10_class_discard_witness :
    (1 * 4 : Nat) ≤ npArgmax [0, 0, 0, 0, (1:ℚ)] ∧
    placeDraw (7 * 1) 10 ([[], [], [], []] : List (List (Int × List ℚ)))
        ((0:Int), [0, 0, 0, 0, (1:ℚ)])
      = [[], [], [], []] := by
  refine ⟨by decide, ?_⟩
  exact (C10_class_discard (⟨3, 256, 256, 10⟩ : TrainingSetInfo)
    (fun _ => ((0:Int), [(1:ℚ), 0])) "1080p".toList ClassLayout.row_per_class
    7 4 7 1 1 4 (by decide) (by decide) rfl rfl rfl rfl (by norm_num)).1
    [[], [], [], []] ((0:Int), [0, 0, 0, 0, (1:ℚ)]) rfl (by decide)

/-! ## Lemmas for claim C2: cyclic one-hot source fills every block -/

/-- One-hot label vector of class `c` among `ls` classes (the synthetic data
source of the claim cycles through these). -/
def oneHot (ls c : Nat) : List ℚ := (List.replicate ls 0).set c 1

theorem set_replicate_split : ∀ (c m : Nat),
    (List.replicate (c + (m + 1)) (0:ℚ)).set c 1
      = List.replicate c 0 ++ 1 :: List.replicate m 0 := by
  intro c
  induction c with
  | zero =>
    intro m
    rw [Nat.zero_add, List.replicate_succ]
    rfl
  | succ c ih =>
    intro m
    have hrw : c + 1 + (m + 1) = (c + (m + 1)) + 1 := by omega
    rw [hrw, List.replicate_succ, List.replicate_succ]
    show (0:ℚ) :: (List.replicate (c + (m + 1)) 0).set c 1 = _
    rw [ih m]
    rfl

theorem npArgmaxAux_zeros_after_one : ∀ (n cur bi : Nat),
    npArgmaxAux (List.replicate n (0:ℚ)) cur bi 1 = bi := by
  intro n
  induction n with
  | zero => intro cur bi; rfl
  | succ n ih =>
    intro cur bi
    rw [List.replicate_succ]
    simp only [npArgmaxAux, if_neg (by norm_num : ¬ (1:ℚ) < 0)]
    exact ih _ _

theorem npArgmaxAux_scan_zeros : ∀ (k m cur bi : Nat),
    npArgmaxAux (List.replicate k (0:ℚ) ++ 1 :: List.replicate m 0) cur bi 0
      = cur + k := by
  intro k
  induction k with
  | zero =>
    intro m cur bi
    rw [List.replicate, List.nil_append]
    simp only [npArgmaxAux, if_pos (by norm_num : (0:ℚ) < 1)]
    rw [npArgmaxAux_zeros_after_one]
    omega
  | succ k ih =>
    intro m cur bi
    rw [List.replicate_succ, List.cons_append]
    simp only [npArgmaxAux, if_neg (lt_irrefl (0:ℚ))]
    rw [ih m (cur + 1) bi]
    omega

/-- `np.argmax` of a one-hot vector is the hot index. -/
theorem npArgmax_oneHot {ls c : Nat} (hc : c < ls) : npArgmax (oneHot ls c) = c := by
  rcases Nat.exists_eq_add_of_lt hc with ⟨m, rfl⟩
  have hrw : c + m + 1 = c + (m + 1) := by omega
  rw [hrw, oneHot, set_replicate_split]
  cases c with
  | zero =>
    rw [List.replicate, List.nil_append]
    show npArgmaxAux (List.replicate m 0) 1 0 1 = 0
    exact npArgmaxAux_zeros_after_one m 1 0
  | succ c =>
    rw [List.replicate_succ, List.cons_append]
    show npArgmaxAux (List.replicate c (0:ℚ) ++ 1 :: List.replicate m 0) 1 0 0 = c + 1
    rw [npArgmaxAux_scan_zeros]
    omega

/-- Remaining demand of class `c`: the number of entries still missing from
the blocks whose index has residue `c` modulo `label_size` (the blocks the
bucket-advance chain starting at class `c` can reach). -/
def classNeed (cap ls nb c : Nat) (blocks : List (List (α × List ℚ))) : Nat :=
  ∑ b ∈ Finset.range nb, if b % ls = c then cap - (blocks.getD b []).length else 0

theorem set_getD_self {β : Type} (l : List β) (i : Nat) (a d : β)
    (h : i < l.length) : (l.set i a).getD i d = a := by
  rw [List.getD_eq_getElem?_getD, List.getElem?_set, if_pos rfl, if_pos h]
  rfl

theorem sum_update_sub_one {n r : Nat} (f g : Nat → Nat) (hr : r ∈ Finset.range n)
    (hfg : ∀ b ∈ Finset.range n, b ≠ r → g b = f b) (hgr : g r + 1 = f r) :
    (∑ b ∈ Finset.range n, g b) + 1 = ∑ b ∈ Finset.range n, f b := by
  have hcongr : ∑ b ∈ (Finset.range n).erase r, g b
      = ∑ b ∈ (Finset.range n).erase r, f b :=
    Finset.sum_congr rfl
      (fun b hb => hfg b (Finset.mem_of_mem_erase hb) (Finset.ne_of_mem_erase hb))
  rw [← Finset.add_sum_erase _ g hr, ← Finset.add_sum_erase _ f hr, hcongr]
  omega

/-- One draw never increases the length deficit of any block. -/
theorem placeDraw_getD_length (cap ls : Nat) (hls : 1 ≤ ls)
    (blocks : List (List (α × List ℚ))) (e : α × List ℚ) :
    ∀ b, (blocks.getD b []).length ≤ ((placeDraw cap ls blocks e).getD b []).length := by
  intro b
  rcases placeDraw_spec cap ls hls blocks e with ⟨heq, _⟩ | ⟨r, hr, _, _, _, _, heq⟩
  · rw [heq]
  · rw [heq]
    by_cases hbr : b = r
    · subst hbr
      rw [set_getD_self _ _ _ _ hr, List.length_append]
      omega
    · rw [set_getD_ne _ _ _ _ _ (fun h => hbr h.symm)]

theorem classNeed_placeDraw_le (cap ls nb : Nat) (hls : 1 ≤ ls)
    (blocks : List (List (α × List ℚ))) (e : α × List ℚ) (c : Nat) :
    classNeed cap ls nb c (placeDraw cap ls blocks e) ≤ classNeed cap ls nb c blocks := by
  apply Finset.sum_le_sum
  intro b _
  by_cases hres : b % ls = c
  · rw [if_pos hres, if_pos hres]
    exact Nat.sub_le_sub_left (placeDraw_getD_length cap ls hls blocks e b) cap
  · rw [if_neg hres, if_neg hres]

/-- A draw of a class with positive remaining demand places one entry:
the demand of that class drops by exactly one. -/
theorem classNeed_placeDraw_progress (cap ls nb : Nat) (hls : 1 ≤ ls)
    (blocks : List (List (α × List ℚ))) (e : α × List ℚ)
    (hlen : blocks.length = nb) (hc : npArgmax e.2 < ls)
    (hpos : 0 < classNeed cap ls nb (npArgmax e.2) blocks) :
    classNeed cap ls nb (npArgmax e.2) (placeDraw cap ls blocks e) + 1
      = classNeed cap ls nb (npArgmax e.2) blocks := by
  rcases placeDraw_spec cap ls hls blocks e with ⟨heq, hfull⟩ | ⟨r, hr, hmod, _, hlt, _, heq⟩
  · exfalso
    have hne : ∃ b ∈ Finset.range nb,
        (if b % ls = npArgmax e.2 then cap - (blocks.getD b []).length else 0) ≠ 0 := by
      by_contra hall
      push_neg at hall
      rw [classNeed, Finset.sum_eq_zero hall] at hpos
      exact Nat.lt_irrefl 0 hpos
    rcases hne with ⟨b, hb, hterm⟩
    rw [Finset.mem_range] at hb
    by_cases hres : b % ls = npArgmax e.2
    · rw [if_pos hres] at hterm
      have hle : npArgmax e.2 ≤ b := by
        rw [← hres]
        exact Nat.mod_le b ls
      have hmodb : b % ls = npArgmax e.2 % ls := by
        rw [hres, Nat.mod_eq_of_lt hc]
      have hblen : b < blocks.length := by omega
      have hcap := hfull b hblen hle hmodb
      omega
    · rw [if_neg hres] at hterm
      exact hterm rfl
  · rw [heq, classNeed, classNeed]
    have hrnb : r < nb := by omega
    apply sum_update_sub_one _ _ (Finset.mem_range.mpr hrnb)
    · intro b hb hbr
      show (if b % ls = npArgmax e.2
          then cap - ((blocks.set r ((blocks.getD r []) ++ [e])).getD b []).length
          else 0)
        = (if b % ls = npArgmax e.2 then cap - (blocks.getD b []).length else 0)
      rw [set_getD_ne _ _ _ _ _ (fun h => hbr h.symm)]
    · have hres : r % ls = npArgmax e.2 := by
        rw [hmod, Nat.mod_eq_of_lt hc]
      show (if r % ls = npArgmax e.2
          then cap - ((blocks.set r ((blocks.getD r []) ++ [e])).getD r []).length
          else 0) + 1
        = (if r % ls = npArgmax e.2 then cap - (blocks.getD r []).length else 0)
      rw [if_pos hres, if_pos hres, set_getD_self _ _ _ _ hr, List.length_append]
      simp only [List.length_singleton]
      omega

theorem iterBlocks_succ (src : Nat → α × List ℚ) (cap ls nb k : Nat) :
    iterBlocks src cap ls nb (k + 1)
      = placeDraw cap ls (iterBlocks src cap ls nb k) (src k) := by
  show iterFrom src cap ls (List.replicate nb []) 0 (k + 1) = _
  rw [iterFrom, Nat.zero_add]
  rfl

theorem iterBlocks_length (src : Nat → α × List ℚ) (cap ls nb k : Nat) :
    (iterBlocks src cap ls nb k).length = nb := by
  show (iterFrom src cap ls (List.replicate nb []) 0 k).length = nb
  rw [iterFrom_length, List.length_replicate]

theorem classNeed_iter_mono (src : Nat → α × List ℚ) (cap ls nb : Nat)
    (hls : 1 ≤ ls) (c t : Nat) :
    ∀ k, classNeed cap ls nb c (iterBlocks src cap ls nb (t + k))
      ≤ classNeed cap ls nb c (iterBlocks src cap ls nb t) := by
  intro k
  induction k with
  | zero => exact le_refl _
  | succ k ih =>
    have hstep : t + (k + 1) = (t + k) + 1 := by omega
    rw [hstep, iterBlocks_succ]
    exact le_trans (classNeed_placeDraw_le cap ls nb hls _ _ c) ih

/-- During each full cycle of `label_size` draws of the cyclic one-hot source,
the demand of every class drops (until it reaches zero). -/
theorem classNeed_window_step (src : Nat → α × List ℚ) (cap ls nb : Nat)
    (hls : 1 ≤ ls) (hsrc : ∀ t, (src t).2 = oneHot ls (t % ls))
    (c : Nat) (hc : c < ls) (W : Nat) :
    classNeed cap ls nb c (iterBlocks src cap ls nb ((W + 1) * ls))
      ≤ classNeed cap ls nb c (iterBlocks src cap ls nb (W * ls)) - 1 := by
  have ht0 : (W * ls + c) % ls = c := by
    rw [Nat.mul_comm W ls, Nat.mul_add_mod]
    exact Nat.mod_eq_of_lt hc
  have hargm : npArgmax (src (W * ls + c)).2 = c := by
    rw [hsrc (W * ls + c), ht0]
    exact npArgmax_oneHot hc
  have hB_le_A : classNeed cap ls nb c (iterBlocks src cap ls nb (W * ls + c))
      ≤ classNeed cap ls nb c (iterBlocks src cap ls nb (W * ls)) :=
    classNeed_iter_mono src cap ls nb hls c (W * ls) c
  have hC_le_B1 : classNeed cap ls nb c (iterBlocks src cap ls nb (W * ls + c + 1))
      ≤ classNeed cap ls nb c (iterBlocks src cap ls nb (W * ls + c)) - 1 := by
    by_cases hpos : 0 < classNeed cap ls nb c (iterBlocks src cap ls nb (W * ls + c))
    · have hprog := classNeed_placeDraw_progress cap ls nb hls
        (iterBlocks src cap ls nb (W * ls + c)) (src (W * ls + c))
        (iterBlocks_length src cap ls nb (W * ls + c))
        (by rw [hargm]; exact hc)
        (by rw [hargm]; exact hpos)
      rw [hargm] at hprog
      rw [iterBlocks_succ]
      omega
    · have h0 : classNeed cap ls nb c (iterBlocks src cap ls nb (W * ls + c)) = 0 := by
        omega
      have := classNeed_iter_mono src cap ls nb hls c (W * ls + c) 1
      omega
  have hD_le_C : classNeed cap ls nb c (iterBlocks src cap ls nb ((W + 1) * ls))
      ≤ classNeed cap ls nb c (iterBlocks src cap ls nb (W * ls + c + 1)) := by
    have harith : (W + 1) * ls = (W * ls + c + 1) + (ls - c - 1) := by
      rw [Nat.succ_mul]
      omega
    rw [harith]
    exact classNeed_iter_mono src cap ls nb hls c (W * ls + c + 1) (ls - c - 1)
  omega

theorem classNeed_windows (src : Nat → α × List ℚ) (cap ls nb : Nat)
    (hls : 1 ≤ ls) (hsrc : ∀ t, (src t).2 = oneHot ls (t % ls))
    (c : Nat) (hc : c < ls) :
    ∀ W, classNeed cap ls nb c (iterBlocks src cap ls nb (W * ls))
      ≤ classNeed cap ls nb c (iterBlocks src cap ls nb 0) - W := by
  intro W
  induction W with
  | zero =>
    rw [Nat.zero_mul]
    omega
  | succ W ih =>
    have hstep := classNeed_window_step src cap ls nb hls hsrc c hc W
    omega

/-- Initial demand of class `c`: at most `cap` entries per reachable block,
and there are at most `nb / ls + 1` blocks with residue `c`. -/
theorem classNeed_init_le (cap ls nb c : Nat) (hls : 1 ≤ ls) :
    classNeed cap ls nb c (List.replicate nb ([] : List (α × List ℚ)))
      ≤ cap * (nb / ls + 1) := by
  have hterm : ∀ b ∈ Finset.range nb,
      (if b % ls = c
        then cap - ((List.replicate nb ([] : List (α × List ℚ))).getD b []).length
        else 0)
      = (if b % ls = c then cap else 0) := by
    intro b hb
    rw [Finset.mem_range] at hb
    have : ((List.replicate nb ([] : List (α × List ℚ))).getD b []).length = 0 := by
      rw [List.getD_eq_getElem?_getD, List.getElem?_replicate, if_pos hb]
      rfl
    rw [this, Nat.sub_zero]
  rw [classNeed, Finset.sum_congr rfl hterm, ← Finset.sum_filter]
  rw [Finset.sum_const, smul_eq_mul]
  rw [Nat.mul_comm]
  apply Nat.mul_le_mul_left cap
  have hmap : ∀ b ∈ (Finset.range nb).filter (fun b => b % ls = c),
      b / ls ∈ Finset.range (nb / ls + 1) := by
    intro b hb
    rcases Finset.mem_filter.mp hb with ⟨hbr, _⟩
    rw [Finset.mem_range] at hbr ⊢
    have := Nat.div_le_div_right (c := ls) (Nat.le_of_lt hbr)
    omega
  have hinj : Set.InjOn (fun b => b / ls)
      ((Finset.range nb).filter (fun b => b % ls = c)) := by
    intro b1 hb1 b2 hb2 he
    rcases Finset.mem_filter.mp hb1 with ⟨_, hr1⟩
    rcases Finset.mem_filter.mp hb2 with ⟨_, hr2⟩
    have h1 := Nat.div_add_mod b1 ls
    have h2 := Nat.div_add_mod b2 ls
    simp only at he
    rw [← h1, ← h2, he, hr1, hr2]
  have := Finset.card_le_card_of_injOn _ hmap hinj
  rwa [Finset.card_range] at this

/-- If every class demand is zero, every block is full. -/
theorem classNeed_zero_allFull (cap ls nb : Nat) (hls : 1 ≤ ls)
    (blocks : List (List (α × List ℚ))) (hlen : blocks.length = nb)
    (hzero : ∀ c, c < ls → classNeed cap ls nb c blocks = 0) :
    allFull cap blocks = true := by
  rw [allFull_iff]
  intro b hb
  have hb2 : b ∈ Finset.range nb := Finset.mem_range.mpr (by omega)
  have hterm := (Finset.sum_eq_zero_iff.mp
    (hzero (b % ls) (Nat.mod_lt b (by omega)))) b hb2
  rw [if_pos rfl] at hterm
  omega

/-- With the cyclic one-hot source, after `cap * (nb / ls + 1)` full cycles
every block is full. -/
theorem iterBlocks_allFull (src : Nat → α × List ℚ) (cap ls nb : Nat)
    (hls : 1 ≤ ls) (hsrc : ∀ t, (src t).2 = oneHot ls (t % ls)) :
    allFull cap (iterBlocks src cap ls nb (cap * (nb / ls + 1) * ls)) = true := by
  apply classNeed_zero_allFull cap ls nb hls _ (iterBlocks_length src cap ls nb _)
  intro c hc
  have hW := classNeed_windows src cap ls nb hls hsrc c hc (cap * (nb / ls + 1))
  have hinit := classNeed_init_le (α := α) cap ls nb c hls
  have h0 : iterBlocks src cap ls nb 0 = List.replicate nb [] := rfl
  rw [h0] at hW
  omega

theorem gridDims_le_32 (ts : TrainingSetInfo) (size : List Char) :
    (gridDims ts size).1 ≤ 32 ∧ (gridDims ts size).2 ≤ 32 := by
  simp only [gridDims]
  by_cases h8 : size = "8k".toList
  · subst h8
    constructor
    · simpa using npClip_upper (7680 / ts.width) 7 32
    · simpa using npClip_upper (4320 / ts.height) 4 32
  · by_cases h4 : size = "4k".toList
    · subst h4
      constructor
      · simpa [h8] using npClip_upper (3840 / ts.width) 7 32
      · simpa [h8] using npClip_upper (2160 / ts.height) 4 32
    · by_cases h1 : size = "1080p".toList
      · subst h1
        constructor
        · simpa [h8, h4] using npClip_upper (1920 / ts.width) 3 32
        · simpa [h8, h4] using npClip_upper (1080 / ts.height) 2 32
      · rw [if_neg h8, if_neg h4, if_neg h1]
        omega

theorem blockShape_le_32 (layout : ClassLayout) (gw gh : Nat)
    (hgw : gw ≤ 32) (hgh : gh ≤ 32) :
    (blockShape layout gw gh).1 ≤ 32 ∧ (blockShape layout gw gh).2 ≤ 32 := by
  cases layout <;> simp [blockShape] <;> omega

/-- The total block capacity `bw*bh*nw*nh` is bounded by
`(gw + bw - 1) * (gh + bh - 1)`. -/
theorem cap_mul_nb_le (gw gh bw bh : Nat) (hbw : 1 ≤ bw) (hbh : 1 ≤ bh) :
    (bw * bh) * (((gw - 1) / bw + 1) * ((gh - 1) / bh + 1))
      ≤ ((gw - 1) + bw) * ((gh - 1) + bh) := by
  have h1 : ((gw - 1) / bw + 1) * bw ≤ (gw - 1) + bw := by
    rw [Nat.succ_mul]
    have := Nat.div_mul_le_self (gw - 1) bw
    omega
  have h2 : ((gh - 1) / bh + 1) * bh ≤ (gh - 1) + bh := by
    rw [Nat.succ_mul]
    have := Nat.div_mul_le_self (gh - 1) bh
    omega
  calc (bw * bh) * (((gw - 1) / bw + 1) * ((gh - 1) / bh + 1))
      = (((gw - 1) / bw + 1) * bw) * (((gh - 1) / bh + 1) * bh) := by ring
    _ ≤ ((gw - 1) + bw) * ((gh - 1) + bh) := Nat.mul_le_mul h1 h2

theorem writeCell_length (nw bw bh gw gh : Nat) (acc : List α × List (List ℚ))
    (w : (Nat × Nat) × (α × List ℚ)) :
    (writeCell nw bw bh gw gh acc w).1.length = acc.1.length
    ∧ (writeCell nw bw bh gw gh acc w).2.length = acc.2.length := by
  unfold writeCell
  split
  · exact ⟨List.length_set _ _ _, List.length_set _ _ _⟩
  · exact ⟨rfl, rfl⟩

theorem writeCell_untouched (nw bw bh gw gh cell : Nat) (d1 : α) (d2 : List ℚ)
    (acc : List α × List (List ℚ)) (w : (Nat × Nat) × (α × List ℚ))
    (hno : ¬(cellX nw bw w.1.1 w.1.2 < gw ∧ cellY nw bw bh w.1.1 w.1.2 < gh
        ∧ cellX nw bw w.1.1 w.1.2 + cellY nw bw bh w.1.1 w.1.2 * gw = cell)) :
    (writeCell nw bw bh gw gh acc w).1.getD cell d1 = acc.1.getD cell d1
    ∧ (writeCell nw bw bh gw gh acc w).2.getD cell d2 = acc.2.getD cell d2 := by
  by_cases hg : cellX nw bw w.1.1 w.1.2 < gw ∧ cellY nw bw bh w.1.1 w.1.2 < gh
  · have hne : cellX nw bw w.1.1 w.1.2 + cellY nw bw bh w.1.1 w.1.2 * gw ≠ cell :=
      fun he => hno ⟨hg.1, hg.2, he⟩
    constructor
    · simp only [writeCell, if_pos hg]
      exact set_getD_ne _ _ _ _ _ hne
    · simp only [writeCell, if_pos hg]
      exact set_getD_ne _ _ _ _ _ hne
  · constructor <;> simp only [writeCell, if_neg hg]

/-- If every write that targets `cell` carries the value `v`, and either some
write targets `cell` or the initial arrays already hold `v` there, the final
arrays hold `v` at `cell`. -/
theorem writeFold_unique (nw bw bh gw gh cell : Nat) (d1 : α) (d2 : List ℚ)
    (v : α × List ℚ) :
    ∀ (ws : List ((Nat × Nat) × (α × List ℚ))) (init : List α × List (List ℚ)),
      cell < init.1.length → cell < init.2.length →
      (∀ w ∈ ws, (cellX nw bw w.1.1 w.1.2 < gw ∧ cellY nw bw bh w.1.1 w.1.2 < gh
          ∧ cellX nw bw w.1.1 w.1.2 + cellY nw bw bh w.1.1 w.1.2 * gw = cell) →
        w.2 = v) →
      ((∃ w ∈ ws, cellX nw bw w.1.1 w.1.2 < gw ∧ cellY nw bw bh w.1.1 w.1.2 < gh
          ∧ cellX nw bw w.1.1 w.1.2 + cellY nw bw bh w.1.1 w.1.2 * gw = cell)
        ∨ (init.1.getD cell d1 = v.1 ∧ init.2.getD cell d2 = v.2)) →
      (ws.foldl (writeCell nw bw bh gw gh) init).1.getD cell d1 = v.1
      ∧ (ws.foldl (writeCell nw bw bh gw gh) init).2.getD cell d2 = v.2 := by
  intro ws
  induction ws with
  | nil =>
    intro init _ _ _ hdisj
    rcases hdisj with ⟨w, hw, _⟩ | h
    · exact absurd hw (List.not_mem_nil w)
    · exact h
  | cons w rest ih =>
    intro init hl1 hl2 hall hdisj
    rw [List.foldl_cons]
    have hlen := writeCell_length nw bw bh gw gh init w
    apply ih (writeCell nw bw bh gw gh init w) (by omega) (by omega)
      (fun w2 hw2 => hall w2 (List.mem_cons_of_mem w hw2))
    by_cases htouch : cellX nw bw w.1.1 w.1.2 < gw ∧ cellY nw bw bh w.1.1 w.1.2 < gh
        ∧ cellX nw bw w.1.1 w.1.2 + cellY nw bw bh w.1.1 w.1.2 * gw = cell
    · right
      have hv := hall w (List.mem_cons_self w rest) htouch
      have hguard : cellX nw bw w.1.1 w.1.2 < gw ∧ cellY nw bw bh w.1.1 w.1.2 < gh :=
        ⟨htouch.1, htouch.2.1⟩
      constructor
      · simp only [writeCell, if_pos hguard]
        rw [htouch.2.2, set_getD_self _ _ _ _ hl1, hv]
      · simp only [writeCell, if_pos hguard]
        rw [htouch.2.2, set_getD_self _ _ _ _ hl2, hv]
    · rcases hdisj with ⟨w2, hw2mem, hw2t⟩ | hinit
      · rcases List.mem_cons.mp hw2mem with rfl | hw2r
        · exact absurd hw2t htouch
        · left
          exact ⟨w2, hw2r, hw2t⟩
      · right
        have hu := writeCell_untouched nw bw bh gw gh cell d1 d2 init w htouch
        exact ⟨hu.1.trans hinit.1, hu.2.trans hinit.2⟩

theorem placeDraw_length_le_cap (cap ls : Nat) (hls : 1 ≤ ls)
    (blocks : List (List (α × List ℚ))) (e : α × List ℚ)
    (hinv : ∀ b, (blocks.getD b []).length ≤ cap) :
    ∀ b, ((placeDraw cap ls blocks e).getD b []).length ≤ cap := by
  intro b
  rcases placeDraw_spec cap ls hls blocks e with ⟨heq, _⟩ | ⟨r, hr, _, _, hlt, _, heq⟩
  · rw [heq]
    exact hinv b
  · rw [heq]
    by_cases hbr : b = r
    · subst hbr
      rw [set_getD_self _ _ _ _ hr, List.length_append]
      simp only [List.length_singleton]
      omega
    · rw [set_getD_ne _ _ _ _ _ (fun h => hbr h.symm)]
      exact hinv b

theorem iterBlocks_length_le_cap (src : Nat → α × List ℚ) (cap ls nb : Nat)
    (hls : 1 ≤ ls) :
    ∀ k b, ((iterBlocks src cap ls nb k).getD b []).length ≤ cap := by
  intro k
  induction k with
  | zero =>
    intro b
    show ((List.replicate nb ([] : List (α × List ℚ))).getD b []).length ≤ cap
    rw [List.getD_eq_getElem?_getD, List.getElem?_replicate]
    split <;> simp
  | succ k ih =>
    intro b
    rw [iterBlocks_succ]
    exact placeDraw_length_le_cap cap ls hls _ _ ih b

/-- Uniqueness of the `x + y * gw` flat cell index for `x < gw`. -/
theorem cell_flat_decomp {gw x y x2 y2 : Nat} (hx : x < gw) (hx2 : x2 < gw)
    (he : x + y * gw = x2 + y2 * gw) : x = x2 ∧ y = y2 := by
  have h1 : (x + y * gw) % gw = x := by
    rw [Nat.add_mul_mod_self_right]
    exact Nat.mod_eq_of_lt hx
  have h2 : (x2 + y2 * gw) % gw = x2 := by
    rw [Nat.add_mul_mod_self_right]
    exact Nat.mod_eq_of_lt hx2
  have h3 : (x + y * gw) / gw = y := by
    rw [Nat.add_mul_div_right _ _ (by omega : 0 < gw), Nat.div_eq_of_lt hx]
    omega
  have h4 : (x2 + y2 * gw) / gw = y2 := by
    rw [Nat.add_mul_div_right _ _ (by omega : 0 < gw), Nat.div_eq_of_lt hx2]
    omega
  constructor
  · rw [← h1, ← h2, he]
  · rw [← h3, ← h4, he]

/-- Uniqueness of the `q * m + r` decomposition for `r < m`. -/
theorem qr_decomp {m q r : Nat} (hr : r < m) :
    (q * m + r) / m = q ∧ (q * m + r) % m = r := by
  constructor
  · rw [Nat.add_comm, Nat.add_mul_div_right _ _ (by omega : 0 < m),
      Nat.div_eq_of_lt hr]
    omega
  · rw [Nat.add_comm, Nat.add_mul_mod_self_right]
    exact Nat.mod_eq_of_lt hr

/-- Grid cell `(x, y)` is served by exactly one (block, entry) pair, namely
block `x / bw + (y / bh) * nw`, entry `(y % bh) * bw + x % bw`. -/
theorem cell_writer_arith (gw gh bw bh nw nh : Nat)
    (hbw : 1 ≤ bw) (hbh : 1 ≤ bh)
    (hnw : nw = (gw - 1) / bw + 1) (hnh : nh = (gh - 1) / bh + 1)
    (x y : Nat) (hx : x < gw) (hy : y < gh) :
    x / bw + (y / bh) * nw < nw * nh
    ∧ (y % bh) * bw + x % bw < bw * bh
    ∧ cellX nw bw (x / bw + (y / bh) * nw) ((y % bh) * bw + x % bw) = x
    ∧ cellY nw bw bh (x / bw + (y / bh) * nw) ((y % bh) * bw + x % bw) = y
    ∧ (∀ i2 j2, j2 < bw * bh →
        cellX nw bw i2 j2 = x → cellY nw bw bh i2 j2 = y →
        i2 = x / bw + (y / bh) * nw ∧ j2 = (y % bh) * bw + x % bw) := by
  have hxw : x / bw ≤ (gw - 1) / bw := Nat.div_le_div_right (by omega)
  have hyh : y / bh ≤ (gh - 1) / bh := Nat.div_le_div_right (by omega)
  have hxm : x % bw < bw := Nat.mod_lt x (by omega)
  have hym : y % bh < bh := Nat.mod_lt y (by omega)
  have hxlt : x / bw < nw := by omega
  have hylt : y / bh < nh := by omega
  have hi := qr_decomp (m := nw) (q := y / bh) (r := x / bw) hxlt
  have hj := qr_decomp (m := bw) (q := y % bh) (r := x % bw) hxm
  have hidx : x / bw + (y / bh) * nw = (y / bh) * nw + x / bw := by omega
  refine ⟨?_, ?_, ?_, ?_, ?_⟩
  · have h3 : (y / bh) * nw ≤ (nh - 1) * nw := Nat.mul_le_mul_right nw (by omega)
    have hpos : 0 < nh := Nat.lt_of_le_of_lt (Nat.zero_le (y / bh)) hylt
    have h4 : (nh - 1) * nw + nw = nh * nw := by
      rw [Nat.sub_one_mul]
      have h6 : nw ≤ nh * nw := Nat.le_mul_of_pos_left nw hpos
      omega
    have h5 : nw * nh = nh * nw := Nat.mul_comm nw nh
    omega
  · have h3 : (y % bh) * bw ≤ (bh - 1) * bw := Nat.mul_le_mul_right bw (by omega)
    have hpos : 0 < bh := Nat.lt_of_le_of_lt (Nat.zero_le (y % bh)) hym
    have h4 : (bh - 1) * bw + bw = bh * bw := by
      rw [Nat.sub_one_mul]
      have h6 : bw ≤ bh * bw := Nat.le_mul_of_pos_left bw hpos
      omega
    have h5 : bw * bh = bh * bw := Nat.mul_comm bw bh
    omega
  · show ((x / bw + (y / bh) * nw) % nw) * bw + ((y % bh) * bw + x % bw) % bw = x
    rw [hidx, hi.2, hj.2]
    have h6 := Nat.div_add_mod x bw
    have h7 : (x / bw) * bw = bw * (x / bw) := Nat.mul_comm _ _
    omega
  · show ((x / bw + (y / bh) * nw) / nw) * bh + ((y % bh) * bw + x % bw) / bw = y
    rw [hidx, hi.1, hj.1]
    have h6 := Nat.div_add_mod y bh
    have h7 : (y / bh) * bh = bh * (y / bh) := Nat.mul_comm _ _
    omega
  · intro i2 j2 hj2 hcx hcy
    have hj2bw : j2 / bw < bh := by
      rw [Nat.div_lt_iff_lt_mul (by omega : 0 < bw)]
      have : bw * bh = bh * bw := Nat.mul_comm bw bh
      omega
    have hj2m : j2 % bw < bw := Nat.mod_lt j2 (by omega)
    have hi2m : i2 % nw < nw := Nat.mod_lt i2 (by omega)
    rw [cellX] at hcx
    rw [cellY] at hcy
    have hux := qr_decomp (m := bw) (q := i2 % nw) (r := j2 % bw) hj2m
    have huy := qr_decomp (m := bh) (q := i2 / nw) (r := j2 / bw) hj2bw
    have hx1 : x / bw = i2 % nw := by
      rw [← hcx]
      exact hux.1
    have hx2 : x % bw = j2 % bw := by
      rw [← hcx]
      exact hux.2
    have hy1 : y / bh = i2 / nw := by
      rw [← hcy]
      exact huy.1
    have hy2 : y % bh = j2 / bw := by
      rw [← hcy]
      exact huy.2
    constructor
    · have hd2 := Nat.div_add_mod i2 nw
      have : (y / bh) * nw = nw * (i2 / nw) := by
        rw [hy1]
        exact Nat.mul_comm _ _
      omega
    · have hd2 := Nat.div_add_mod j2 bw
      have : (y % bh) * bw = bw * (j2 / bw) := by
        rw [hy2]
        exact Nat.mul_comm _ _
      omega

/-- Core of C2: with a cyclic one-hot source and a draw budget comfortably
above `cap * (nb/ls + 1) * ls`, the loop stops with all blocks full and every
grid cell `(x, y)` receives the entry of its unique (block, entry) writer. -/
theorem sampler_fills_grid {α : Type} [Zero α]
    (src : Nat → α × List ℚ) (ls gw gh bw bh nw nh : Nat)
    (hls : 1 ≤ ls) (hbw : 1 ≤ bw) (hbh : 1 ≤ bh)
    (hnw : nw = (gw - 1) / bw + 1) (hnh : nh = (gh - 1) / bh + 1)
    (hsrc : ∀ t, (src t).2 = oneHot ls (t % ls))
    (hbound : (bw * bh) * ((nw * nh) / ls + 1) * ls < 1000000)
    (x y : Nat) (hx : x < gw) (hy : y < gh) :
    allFull (bw * bh) ((sampleLoop src (bw * bh) ls (nw * nh)).1) = true
    ∧ ∃ i j b e, i < nw * nh ∧ j < bw * bh
        ∧ cellX nw bw i j = x ∧ cellY nw bw bh i j = y
        ∧ ((sampleLoop src (bw * bh) ls (nw * nh)).1)[i]? = some b
        ∧ b[j]? = some e
        ∧ (fillGrid nw bw bh gw gh ((sampleLoop src (bw * bh) ls (nw * nh)).1)
            (List.replicate (gw * gh) 0,
             List.replicate (gw * gh) (List.replicate ls 0))).1.getD (x + y * gw) 0
          = e.1
        ∧ (fillGrid nw bw bh gw gh ((sampleLoop src (bw * bh) ls (nw * nh)).1)
            (List.replicate (gw * gh) 0,
             List.replicate (gw * gh) (List.replicate ls 0))).2.getD (x + y * gw) []
          = e.2 := by
  have hcap1 : 1 ≤ bw * bh :=
    Nat.one_le_iff_ne_zero.mpr (Nat.mul_ne_zero (by omega) (by omega))
  have hnw0 : nw ≠ 0 := by
    rw [hnw]
    exact Nat.succ_ne_zero _
  have hnh0 : nh ≠ 0 := by
    rw [hnh]
    exact Nat.succ_ne_zero _
  have hnb1 : 1 ≤ nw * nh :=
    Nat.one_le_iff_ne_zero.mpr (Nat.mul_ne_zero hnw0 hnh0)
  rcases sampleLoop_final src (bw * bh) ls (nw * nh) hcap1 hnb1
    with ⟨d, hd, hloop, hprev, hdisj⟩
  have hblocks : (sampleLoop src (bw * bh) ls (nw * nh)).1
      = iterBlocks src (bw * bh) ls (nw * nh) d := congrArg Prod.fst hloop
  have hT := iterBlocks_allFull src (bw * bh) ls (nw * nh) hls hsrc
  have hdT : d ≤ (bw * bh) * ((nw * nh) / ls + 1) * ls := by
    by_contra hgt
    push_neg at hgt
    have hfalse := hprev _ hgt
    rw [hfalse] at hT
    exact Bool.noConfusion hT
  have hfull : allFull (bw * bh) (iterBlocks src (bw * bh) ls (nw * nh) d) = true := by
    rcases hdisj with h | h
    · exact h
    · exfalso
      omega
  rcases cell_writer_arith gw gh bw bh nw nh hbw hbh hnw hnh x y hx hy
    with ⟨hilt, hjlt, hcx, hcy, huniq⟩
  have hlenB : (iterBlocks src (bw * bh) ls (nw * nh) d).length = nw * nh :=
    iterBlocks_length src (bw * bh) ls (nw * nh) d
  have hiB : x / bw + (y / bh) * nw < (iterBlocks src (bw * bh) ls (nw * nh) d).length := by
    omega
  have hcapB := (allFull_iff (bw * bh) (iterBlocks src (bw * bh) ls (nw * nh) d)).mp
    hfull _ hiB
  have hjB : (y % bh) * bw + x % bw
      < ((iterBlocks src (bw * bh) ls (nw * nh) d).getD (x / bw + (y / bh) * nw) []).length := by
    omega
  have hbsome : (iterBlocks src (bw * bh) ls (nw * nh) d)[x / bw + (y / bh) * nw]?
      = some ((iterBlocks src (bw * bh) ls (nw * nh) d).getD (x / bw + (y / bh) * nw) []) := by
    rw [List.getD_eq_getElem _ _ hiB]
    exact List.getElem?_eq_getElem hiB
  have hesome : ((iterBlocks src (bw * bh) ls (nw * nh) d).getD (x / bw + (y / bh) * nw) [])[(y % bh) * bw + x % bw]?
      = some (((iterBlocks src (bw * bh) ls (nw * nh) d).getD (x / bw + (y / bh) * nw) []).getD ((y % bh) * bw + x % bw) ((0:α), ([] : List ℚ))) := by
    rw [List.getD_eq_getElem _ _ hjB]
    exact List.getElem?_eq_getElem hjB
  have hcell_lt : x + y * gw < gw * gh := by
    have h1 : y * gw ≤ (gh - 1) * gw := Nat.mul_le_mul_right gw (by omega)
    have h2 : (gh - 1) * gw + gw = gh * gw := by
      rw [Nat.sub_one_mul]
      have h6 : gw ≤ gh * gw := Nat.le_mul_of_pos_left gw (by omega)
      omega
    have h3 : gw * gh = gh * gw := Nat.mul_comm _ _
    omega
  have happ := writeFold_unique nw bw bh gw gh (x + y * gw) 0 []
    (((iterBlocks src (bw * bh) ls (nw * nh) d).getD (x / bw + (y / bh) * nw) []).getD
      ((y % bh) * bw + x % bw) ((0:α), ([] : List ℚ)))
    (blockWrites (iterBlocks src (bw * bh) ls (nw * nh) d))
    (List.replicate (gw * gh) 0, List.replicate (gw * gh) (List.replicate ls 0))
    (by simpa using hcell_lt) (by simpa using hcell_lt)
    (by
      intro w hw htouch
      rcases (mem_blockWrites _ w.1.1 w.1.2 w.2).mp hw with ⟨b2, hb2, he2⟩
      rcases List.getElem?_eq_some.mp hb2 with ⟨hb2len, hb2val⟩
      have hb2D : (iterBlocks src (bw * bh) ls (nw * nh) d).getD w.1.1 [] = b2 := by
        rw [List.getD_eq_getElem _ _ hb2len]
        exact hb2val
      have hjcap : w.1.2 < bw * bh := by
        have hle := iterBlocks_length_le_cap src (bw * bh) ls (nw * nh) hls d w.1.1
        rw [hb2D] at hle
        rcases List.getElem?_eq_some.mp he2 with ⟨he2len, _⟩
        omega
      have hdec := cell_flat_decomp htouch.1 hx htouch.2.2
      rcases huniq w.1.1 w.1.2 hjcap hdec.1 hdec.2 with ⟨hieq, hjeq⟩
      rw [hieq] at hb2
      rw [hjeq] at he2
      have hb2b : b2 = (iterBlocks src (bw * bh) ls (nw * nh) d).getD
          (x / bw + (y / bh) * nw) [] :=
        Option.some.inj (hb2.symm.trans hbsome)
      rw [hb2b] at he2
      exact Option.some.inj (he2.symm.trans hesome))
    (Or.inl ⟨((x / bw + (y / bh) * nw, (y % bh) * bw + x % bw),
        ((iterBlocks src (bw * bh) ls (nw * nh) d).getD (x / bw + (y / bh) * nw) []).getD
          ((y % bh) * bw + x % bw) ((0:α), ([] : List ℚ))),
      (mem_blockWrites _ _ _ _).mpr
        ⟨(iterBlocks src (bw * bh) ls (nw * nh) d).getD (x / bw + (y / bh) * nw) [],
          hbsome, hesome⟩,
      by rw [hcx]; exact hx,
      by rw [hcy]; exact hy,
      by rw [hcx, hcy]⟩)
  refine ⟨by rw [hblocks]; exact hfull,
    x / bw + (y / bh) * nw, (y % bh) * bw + x % bw,
    (iterBlocks src (bw * bh) ls (nw * nh) d).getD (x / bw + (y / bh) * nw) [],
    ((iterBlocks src (bw * bh) ls (nw * nh) d).getD (x / bw + (y / bh) * nw) []).getD
      ((y % bh) * bw + x % bw) ((0:α), ([] : List ℚ)),
    hilt, hjlt, hcx, hcy, ?_, hesome, ?_, ?_⟩
  · rw [hblocks]
    exact hbsome
  · rw [hblocks]
    exact happ.1
  · rw [hblocks]
    exact happ.2

/-- C2: for every class-balanced layout, if the data source cycles
deterministically through exactly `K = label_size` one-hot classes (draw `t`
has class `t mod K`) and `K` times the block capacity is far below the
1,000,000-draw cap, then the loop stops with every block full and every cell
of the returned `reals` and `labels` arrays holds the payload and label of its
block entry — no cell retains its zero default. -/
theorem C2_cyclic_source_fills_grid {α : Type} [Zero α]
    (ts : TrainingSetInfo) (src : Nat → α × List ℚ) (size : List Char)
    (layout : ClassLayout) (gw gh bw bh nw nh : Nat)
    (hgw : gw = (gridDims ts size).1) (hgh : gh = (gridDims ts size).2)
    (hbw : bw = (blockShape layout gw gh).1) (hbh : bh = (blockShape layout gw gh).2)
    (hnw : nw = (gw - 1) / bw + 1) (hnh : nh = (gh - 1) / bh + 1)
    (hls : 1 ≤ ts.label_size)
    (hsrc : ∀ t, (src t).2 = oneHot ts.label_size (t % ts.label_size))
    (hfar : ts.label_size * (bw * bh) ≤ 900000) :
    allFull (bw * bh) ((sampleLoop src (bw * bh) ts.label_size (nw * nh)).1) = true
    ∧ ∀ x y, x < gw → y < gh →
        ∃ i j b e, i < nw * nh ∧ j < bw * bh
          ∧ cellX nw bw i j = x ∧ cellY nw bw bh i j = y
          ∧ ((sampleLoop src (bw * bh) ts.label_size (nw * nh)).1)[i]? = some b
          ∧ b[j]? = some e
          ∧ (setup_snapshot_image_grid ts src size layout).2.1.getD (x + y * gw) 0
            = e.1
          ∧ (setup_snapshot_image_grid ts src size layout).2.2.getD (x + y * gw) []
            = e.2 := by
  subst hgw hgh hbw hbh hnw hnh
  have hgw1 := (gridDims_ge_one ts size).1
  have hgh1 := (gridDims_ge_one ts size).2
  have hbw1 := (blockShape_pos layout _ _ hgw1 hgh1).1
  have hbh1 := (blockShape_pos layout _ _ hgw1 hgh1).2
  have hgw32 := (gridDims_le_32 ts size).1
  have hgh32 := (gridDims_le_32 ts size).2
  have hbw32 := (blockShape_le_32 layout _ _ hgw32 hgh32).1
  have hbh32 := (blockShape_le_32 layout _ _ hgw32 hgh32).2
  have hbound : ((blockShape layout (gridDims ts size).1 (gridDims ts size).2).1
        * (blockShape layout (gridDims ts size).1 (gridDims ts size).2).2)
      * (((((gridDims ts size).1 - 1)
            / (blockShape layout (gridDims ts size).1 (gridDims ts size).2).1 + 1)
          * (((gridDims ts size).2 - 1)
            / (blockShape layout (gridDims ts size).1 (gridDims ts size).2).2 + 1))
          / ts.label_size + 1)
      * ts.label_size < 1000000 := by
    set gwv := (gridDims ts size).1 with hgwv
    set ghv := (gridDims ts size).2 with hghv
    set bwv := (blockShape layout gwv ghv).1 with hbwv
    set bhv := (blockShape layout gwv ghv).2 with hbhv
    set nbv := (((gwv - 1) / bwv + 1) * ((ghv - 1) / bhv + 1)) with hnbv
    have h1 : (nbv / ts.label_size) * ts.label_size ≤ nbv :=
      Nat.div_mul_le_self _ _
    have h2 : (bwv * bhv) * (nbv / ts.label_size + 1) * ts.label_size
        = (bwv * bhv) * ((nbv / ts.label_size) * ts.label_size)
          + (bwv * bhv) * ts.label_size := by ring
    have h3 : (bwv * bhv) * ((nbv / ts.label_size) * ts.label_size)
        ≤ (bwv * bhv) * nbv := Nat.mul_le_mul_left _ h1
    have h4 : (bwv * bhv) * nbv ≤ ((gwv - 1) + bwv) * ((ghv - 1) + bhv) :=
      cap_mul_nb_le gwv ghv bwv bhv hbw1 hbh1
    have h5 : (gwv - 1) + bwv ≤ 63 := by omega
    have h6 : (ghv - 1) + bhv ≤ 63 := by omega
    have h7 : ((gwv - 1) + bwv) * ((ghv - 1) + bhv) ≤ 63 * 63 :=
      Nat.mul_le_mul h5 h6
    have h8 : (bwv * bhv) * ts.label_size = ts.label_size * (bwv * bhv) :=
      Nat.mul_comm _ _
    omega
  constructor
  · exact (sampler_fills_grid src ts.label_size (gridDims ts size).1 (gridDims ts size).2
      (blockShape layout (gridDims ts size).1 (gridDims ts size).2).1
      (blockShape layout (gridDims ts size).1 (gridDims ts size).2).2
      (((gridDims ts size).1 - 1)
        / (blockShape layout (gridDims ts size).1 (gridDims ts size).2).1 + 1)
      (((gridDims ts size).2 - 1)
        / (blockShape layout (gridDims ts size).1 (gridDims ts size).2).2 + 1)
      hls hbw1 hbh1 rfl rfl hsrc hbound 0 0 (by omega) (by omega)).1
  · intro x y hx hy
    rcases (sampler_fills_grid src ts.label_size (gridDims ts size).1 (gridDims ts size).2
      (blockShape layout (gridDims ts size).1 (gridDims ts size).2).1
      (blockShape layout (gridDims ts size).1 (gridDims ts size).2).2
      (((gridDims ts size).1 - 1)
        / (blockShape layout (gridDims ts size).1 (gridDims ts size).2).1 + 1)
      (((gridDims ts size).2 - 1)
        / (blockShape layout (gridDims ts size).1 (gridDims ts size).2).2 + 1)
      hls hbw1 hbh1 rfl rfl hsrc hbound x y hx hy).2
      with ⟨i, j, b, e, h1, h2, h3, h4, h5, h6, h7, h8⟩
    refine ⟨i, j, b, e, h1, h2, h3, h4, h5, h6, ?_, ?_⟩
    · simp only [setup_snapshot_image_grid]
      exact h7
    · simp only [setup_snapshot_image_grid]
      exact h8

/-- Witness for C2: 256×256 10-class training set, `1080p` preset,
`row_per_class` layout, and the cyclic one-hot source. -/
theorem C2_cyclic_source_fills_grid_witness :
    10 * (7 * 1) ≤ 900000 ∧
    allFull (7 * 1)
      ((sampleLoop (fun t => ((0:Int), oneHot 10 (t % 10))) (7 * 1) 10 (1 * 4)).1)
      = true := by
  refine ⟨by norm_num, ?_⟩
  exact (C2_cyclic_source_fills_grid (⟨3, 256, 256, 10⟩ : TrainingSetInfo)
    (fun t => ((0:Int), oneHot 10 (t % 10))) "1080p".toList ClassLayout.row_per_class
    7 4 7 1 1 4 (by decide) (by decide) rfl rfl rfl rfl (by norm_num)
    (fun t => rfl) (by norm_num)).1
